import Mathlib

/-!
Verification of the `2025a-arceos` exercise core: the early double-ended bump
allocator (`modules/bump_allocator/src/lib.rs`) and the seeded open-addressing
hash map (`ulib/axstd/src/collections.rs`).

Conventions of the embedding:
* `usize` values are natural numbers; the explicit checked arithmetic of the
  source (`checked_add`, `checked_mul`) is modelled with the bound
  `USIZE = 2 ^ 64`.  A Rust panic (`unwrap` on `None`, `todo!()`) is modelled
  by an `Option` result being `none`.
* Pure functions become Lean functions; `&mut self` methods become functions
  from the state to (result, new state).
-/

set_option autoImplicit false
set_option linter.unusedSectionVars false

namespace ArceOS

/-- Size bound of `usize` arithmetic: `2 ^ 64`. -/
def USIZE : Nat := 2 ^ 64

/-- Error type `allocator::AllocError` (the variants used by this crate). -/
inductive AllocError where
  | InvalidParam
  | MemoryOverlap
  | NoMemory
deriving DecidableEq

/-- Result type `allocator::AllocResult<T> = Result<T, AllocError>`. -/
inductive AllocResult (α : Type) where
  | ok : α → AllocResult α
  | err : AllocError → AllocResult α
deriving DecidableEq

/-- State of `EarlyAllocator` (`start`, `end`, `b_pos`, `p_pos`); the const
generic `SIZE` (page size) plays no role in the implemented byte side. -/
structure EarlyAllocator where
  start : Nat
  end_ : Nat
  b_pos : Nat
  p_pos : Nat
deriving DecidableEq

namespace EarlyAllocator

/-- Constructor `EarlyAllocator::new`: the all-zero state. -/
def new : EarlyAllocator := ⟨0, 0, 0, 0⟩

/-- Method `init`: set `start`, `end = start + size`, `b_pos = start`,
`p_pos = start + size`.  The `+` is plain `usize` addition, which wraps to
64 bits (release semantics of `+`). -/
def init (s : EarlyAllocator) (start size : Nat) : EarlyAllocator :=
  { s with
    start := start
    end_ := (start + size) % USIZE
    b_pos := start
    p_pos := (start + size) % USIZE }

/-- Method `add_memory`.  The source computes `start.checked_add(size).unwrap()`,
so an overflowing bound is a panic, modelled as `none`. -/
def add_memory (s : EarlyAllocator) (start size : Nat) :
    Option (AllocResult Unit × EarlyAllocator) :=
  if size = 0 then some (.err .InvalidParam, s)
  else if USIZE ≤ start + size then none
  else if s.start ≤ start ∧ start + size ≤ s.end_ then some (.err .MemoryOverlap, s)
  else if start = s.end_ then
    some (.ok (), { s with end_ := start + size, p_pos := start + size })
  else if start + size = s.start then
    some (.ok (), { s with
      start := start
      b_pos := if s.b_pos < start then start else s.b_pos })
  else some (.err .InvalidParam, s)

/-- The expression `(b_pos + align_mask) & !align_mask` of `alloc` for a
power-of-two `align`: the sum wraps to 64 bits (release semantics of `+`),
and `& !align_mask` clears the bits below `align`, i.e. subtracts the
remainder modulo `align`. -/
def alignedCursor (b_pos align : Nat) : Nat :=
  (b_pos + (align - 1)) % USIZE - (b_pos + (align - 1)) % USIZE % align

/-- Method `alloc` of the `ByteAllocator` impl.  `checked_add(size).unwrap()`
panics on overflow (`none`); then `NoMemory` if the new cursor would pass
`p_pos`; then `NonNull::new` fails with `InvalidParam` exactly when the
aligned address is zero; otherwise the cursor is committed. -/
def alloc (s : EarlyAllocator) (size align : Nat) :
    Option (AllocResult Nat × EarlyAllocator) :=
  if USIZE ≤ alignedCursor s.b_pos align + size then none
  else if s.p_pos < alignedCursor s.b_pos align + size then
    some (.err .NoMemory, s)
  else if alignedCursor s.b_pos align = 0 then
    some (.err .InvalidParam, s)
  else
    some (.ok (alignedCursor s.b_pos align),
      { s with b_pos := alignedCursor s.b_pos align + size })

/-- Method `dealloc`: effective size is `max(size, 1)`; `checked_add`
overflow silently skips (no panic); retract `b_pos` only for a
top-of-region range lying inside `[start, end)`. -/
def dealloc (s : EarlyAllocator) (addr size : Nat) : EarlyAllocator :=
  if addr + (if size = 0 then 1 else size) < USIZE then
    if addr + (if size = 0 then 1 else size) = s.b_pos ∧ s.start ≤ addr ∧
        addr + (if size = 0 then 1 else size) ≤ s.end_ then
      { s with b_pos := addr }
    else s
  else s

/-- Method `total_bytes`. -/
def total_bytes (s : EarlyAllocator) : Nat := s.end_ - s.start

/-- Method `used_bytes`. -/
def used_bytes (s : EarlyAllocator) : Nat := s.b_pos - s.start

/-- Method `available_bytes`. -/
def available_bytes (s : EarlyAllocator) : Nat := s.p_pos - s.b_pos

/-- Method `alloc_pages` of the `PageAllocator` impl is `todo!()`: an
unconditional panic, modelled as `none` for every input. -/
def alloc_pages (_s : EarlyAllocator) (_num_pages _align_pow2 : Nat) :
    Option (AllocResult Nat × EarlyAllocator) := none

/-- Method `dealloc_pages` is `todo!()`: unconditional panic (`none`). -/
def dealloc_pages (_s : EarlyAllocator) (_pos _num_pages : Nat) :
    Option EarlyAllocator := none

/-- Method `total_pages` is `todo!()`: unconditional panic (`none`). -/
def total_pages (_s : EarlyAllocator) : Option Nat := none

/-- Method `used_pages` is `todo!()`: unconditional panic (`none`). -/
def used_pages (_s : EarlyAllocator) : Option Nat := none

/-- Method `available_pages` is `todo!()`: unconditional panic (`none`). -/
def available_pages (_s : EarlyAllocator) : Option Nat := none

end EarlyAllocator

/-- The documented ordering invariant of the allocator:
`start ≤ b_pos ≤ p_pos ≤ end`. -/
def Inv (s : EarlyAllocator) : Prop :=
  s.start ≤ s.b_pos ∧ s.b_pos ≤ s.p_pos ∧ s.p_pos ≤ s.end_

instance (s : EarlyAllocator) : Decidable (Inv s) :=
  inferInstanceAs (Decidable (_ ∧ _ ∧ _))

/-- Run a list of `(size, align)` requests through `alloc`, collecting the
successful `(addr, size, align)` results in order; a panic (`none` from
`alloc`) aborts the whole run. -/
def allocRun (s : EarlyAllocator) :
    List (Nat × Nat) → Option (EarlyAllocator × List (Nat × Nat × Nat))
  | [] => some (s, [])
  | (size, align) :: rest =>
    match s.alloc size align with
    | none => none
    | some (.ok addr, s') =>
      (allocRun s' rest).map (fun r => (r.1, (addr, size, align) :: r.2))
    | some (.err _, s') => allocRun s' rest

/-- Results chained upward from cursor `b`: each address is at least `b`
and the next link starts past the end of the range. -/
def ChainFrom (b : Nat) : List (Nat × Nat × Nat) → Prop
  | [] => True
  | r :: rs => b ≤ r.1 ∧ ChainFrom (r.1 + r.2.1) rs

/-- An `align` value admissible for `core::alloc::Layout`: a power of two
representable in `usize`. -/
def GoodAlign (a : Nat) : Prop := ∃ k, a = 2 ^ k ∧ k < 64

/-- The `add_memory` case analysis stated by the spec, as a predicate on an
allocator state and a request (compared against the code in the theorems). -/
def AddMemorySpec (s : EarlyAllocator) (a sz : Nat) : Prop :=
  (sz = 0 → s.add_memory a sz = some (.err .InvalidParam, s)) ∧
  (sz ≠ 0 → s.start ≤ a → a + sz ≤ s.end_ →
    s.add_memory a sz = some (.err .MemoryOverlap, s)) ∧
  (sz ≠ 0 → a = s.end_ →
    s.add_memory a sz = some (.ok (), { s with end_ := a + sz, p_pos := a + sz }) ∧
    EarlyAllocator.total_bytes { s with end_ := a + sz, p_pos := a + sz } =
      s.total_bytes + sz) ∧
  (sz ≠ 0 → a + sz = s.start →
    s.add_memory a sz = some (.ok (), { s with start := a }) ∧
    EarlyAllocator.total_bytes { s with start := a } = s.total_bytes + sz) ∧
  (sz ≠ 0 → ¬(s.start ≤ a ∧ a + sz ≤ s.end_) → a ≠ s.end_ → a + sz ≠ s.start →
    s.add_memory a sz = some (.err .InvalidParam, s))

/-- A bucket of the axstd `HashMap`: one key-value pair. -/
structure Bucket (K V : Type) where
  key : K
  value : V

/-- The bucket array `Vec<Option<Bucket<K, V>>>`. -/
abbrev Table (K V : Type) := List (Option (Bucket K V))

/-- The axstd `HashMap`: bucket array, `len`, and the per-instance `seed`.
The SipHash computation itself is kept abstract: every operation takes a
function `sip : Nat → K → Nat` standing for the 64-bit result of
`SipHasher::new_with_keys(seed, 0xdeadbeef)` fed with the key. -/
structure HashMap (K V : Type) where
  buckets : Table K V
  len : Nat
  seed : Nat

/-- Function `index_for_seed`: hash of `key` under `seed`, reduced mod `cap`. -/
def indexForSeed {K : Type} (sip : Nat → K → Nat) (seed : Nat) (key : K)
    (cap : Nat) : Nat :=
  sip seed key % cap

/-- Hit test of the probe loop in `insert`/`get`: stop at an empty slot or at
a bucket holding an equal key. -/
def slotKeyHit {K V : Type} [DecidableEq K] (key : K) :
    Option (Bucket K V) → Bool
  | none => true
  | some b => decide (b.key = key)

/-- Hit test of the probe loop in `grow`: stop at an empty slot. -/
def slotEmpty {K V : Type} : Option (Bucket K V) → Bool
  | none => true
  | some _ => false

/-- The linear-probe loop `loop { match buckets[idx] ... idx = (idx + 1) % cap }`
of the source, made total with a fuel argument; the invariant theorems show
that fuel `capacity` always suffices, which is exactly termination of the
source loops. -/
def scanFrom {K V : Type} (p : Option (Bucket K V) → Bool) (t : Table K V) :
    Nat → Nat → Option Nat
  | _idx, 0 => none
  | idx, fuel + 1 =>
    match t[idx]? with
    | none => none
    | some s => if p s then some idx else scanFrom p t ((idx + 1) % t.length) fuel

namespace HashMap

/-- Constructor `HashMap::new`: 16 empty buckets, `len = 0`, and the seed drawn
from the external `random()` source (a parameter of the model). -/
def new {K V : Type} (seed : Nat) : HashMap K V :=
  ⟨List.replicate 16 none, 0, seed⟩

/-- Method `hash`, i.e. `index_for(key, buckets.len())`. -/
def hashIdx {K V : Type} (sip : Nat → K → Nat) (m : HashMap K V) (key : K) : Nat :=
  indexForSeed sip m.seed key m.buckets.length

/-- Method `get`: probe from the home index; at the found slot a bucket
yields its value, an empty slot yields `None`. -/
def get {K V : Type} [DecidableEq K] (sip : Nat → K → Nat) (m : HashMap K V)
    (key : K) : Option V :=
  match scanFrom (slotKeyHit key) m.buckets (m.hashIdx sip key) m.buckets.length with
  | some idx =>
    match m.buckets[idx]? with
    | some (some b) => some b.value
    | _ => none
  | none => none

/-- Body of the `grow` rehash loop: place a bucket at the first empty slot of
the linear probe from `idx`. -/
def placeEntry {K V : Type} (b : Bucket K V) (t : Table K V) (idx : Nat) :
    Table K V :=
  match scanFrom slotEmpty t idx t.length with
  | some j => t.set j (some b)
  | none => t

/-- The `grow` rehash loop over the old buckets (`slot.take()` on each slot in
order, re-inserting into the new table). -/
def rehashInto {K V : Type} (sip : Nat → K → Nat) (seed : Nat)
    (old acc : Table K V) : Table K V :=
  old.foldl (fun acc slot =>
    match slot with
    | none => acc
    | some b => HashMap.placeEntry b acc (indexForSeed sip seed b.key acc.length)) acc

/-- Method `grow`: new capacity `old_cap.checked_mul(2).unwrap_or(old_cap + 1)`
and rehash of every entry into the fresh table. -/
def grow {K V : Type} (sip : Nat → K → Nat) (m : HashMap K V) : HashMap K V :=
  { m with
    buckets := rehashInto sip m.seed m.buckets
      (List.replicate
        (if m.buckets.length * 2 < USIZE then m.buckets.length * 2
         else m.buckets.length + 1) none) }

/-- The load-factor check at the top of `insert`: grow first when
`len * 100 >= capacity * 70`. -/
def growIfNeeded {K V : Type} (sip : Nat → K → Nat) (m : HashMap K V) :
    HashMap K V :=
  if m.buckets.length * 70 ≤ m.len * 100 then grow sip m else m

/-- The probe-and-write part of `insert` (after the load-factor check):
update the value in place on an equal key, or fill the first empty slot and
increment `len`. -/
def insertRaw {K V : Type} [DecidableEq K] (sip : Nat → K → Nat) (m : HashMap K V)
    (key : K) (value : V) : HashMap K V :=
  match scanFrom (slotKeyHit key) m.buckets (m.hashIdx sip key) m.buckets.length with
  | some idx =>
    match m.buckets[idx]? with
    | some (some _) => { m with buckets := m.buckets.set idx (some ⟨key, value⟩) }
    | _ => { m with buckets := m.buckets.set idx (some ⟨key, value⟩), len := m.len + 1 }
  | none => m

/-- Method `insert`. -/
def insert {K V : Type} [DecidableEq K] (sip : Nat → K → Nat) (m : HashMap K V)
    (key : K) (value : V) : HashMap K V :=
  insertRaw sip (growIfNeeded sip m) key value

/-- Method `iter` run to completion: the `(key, value)` pairs of the occupied
slots in slot order (`Iter::next` walks `idx` upward and skips `None`). -/
def iterate {K V : Type} (m : HashMap K V) : List (K × V) :=
  m.buckets.filterMap (fun s => s.map (fun b => (b.key, b.value)))

end HashMap

/-- Cyclic distance from slot `a` to slot `b` in a table of `cap` slots. -/
def cycDist (cap a b : Nat) : Nat := (b + cap - a) % cap

/-- Slot `i` of `t` is occupied. -/
def FullAt {K V : Type} (t : Table K V) (i : Nat) : Prop :=
  ∃ b, t[i]? = some (some b)

/-- The table stores value `v` for key `k`. -/
def MapsTo {K V : Type} (t : Table K V) (k : K) (v : V) : Prop :=
  ∃ (j : Nat) (b : Bucket K V), t[j]? = some (some b) ∧ b.key = k ∧ b.value = v

/-- Invariant of an open-addressing table: stored keys are pairwise distinct,
and every entry is reachable from its home index by a probe path of occupied
slots. -/
structure TableInv {K V : Type} (sip : Nat → K → Nat) (seed : Nat)
    (t : Table K V) : Prop where
  distinct : ∀ (i j : Nat) (bi bj : Bucket K V),
    t[i]? = some (some bi) → t[j]? = some (some bj) → bi.key = bj.key → i = j
  path : ∀ (j : Nat) (b : Bucket K V), t[j]? = some (some b) →
    ∀ i, i < cycDist t.length (indexForSeed sip seed b.key t.length) j →
      FullAt t ((indexForSeed sip seed b.key t.length + i) % t.length)

/-- Invariant of a reachable `HashMap` state. -/
structure MapInv {K V : Type} (sip : Nat → K → Nat) (m : HashMap K V) : Prop where
  capLB : 16 ≤ m.buckets.length
  lenLT : m.len < m.buckets.length
  lenEq : m.len = m.buckets.countP (fun s => s.isSome)
  tbl : TableInv sip m.seed m.buckets

/-- Fold a list of `(key, value)` insertions into a fresh map. -/
def runInserts {K V : Type} [DecidableEq K] (sip : Nat → K → Nat) (seed : Nat)
    (ops : List (K × V)) : HashMap K V :=
  ops.foldl (fun m p => m.insert sip p.1 p.2) (HashMap.new seed)

/-- The value of the latest insertion for key `k` in the operation list. -/
def lastVal {K V : Type} [DecidableEq K] (ops : List (K × V)) (k : K) : Option V :=
  ops.foldl (fun acc p => if p.1 = k then some p.2 else acc) none

section AllocatorLemmas

open EarlyAllocator

lemma alignedCursor_dvd (b_pos align : Nat) : align ∣ alignedCursor b_pos align := by
  unfold alignedCursor
  rcases Nat.eq_zero_or_pos align with h0 | hpos
  · simp [h0]
  · refine ⟨(b_pos + (align - 1)) % USIZE / align, ?_⟩
    have := Nat.div_add_mod ((b_pos + (align - 1)) % USIZE) align
    omega

lemma alignedCursor_ge (b_pos align : Nat) (hb : b_pos < USIZE)
    (h0 : alignedCursor b_pos align ≠ 0) : b_pos ≤ alignedCursor b_pos align := by
  unfold alignedCursor at *
  have hU : 0 < USIZE := by unfold USIZE; positivity
  rcases Nat.eq_zero_or_pos align with ha0 | hapos
  · exfalso; apply h0; simp [ha0]
  · have hxmod : (b_pos + (align - 1)) % USIZE % align < align :=
      Nat.mod_lt _ hapos
    by_cases hwrap : b_pos + (align - 1) < USIZE
    · rw [Nat.mod_eq_of_lt hwrap] at *
      omega
    · exfalso; apply h0
      by_cases hA : align ≤ USIZE
      · have hxe : (b_pos + (align - 1)) % USIZE = b_pos + (align - 1) - USIZE := by
          rw [Nat.mod_eq_sub_mod (by omega), Nat.mod_eq_of_lt (by omega)]
        rw [hxe]
        rw [Nat.mod_eq_of_lt (by omega)]
        omega
      · have hxlt : (b_pos + (align - 1)) % USIZE < align := by
          have := Nat.mod_lt (b_pos + (align - 1)) hU
          omega
        rw [Nat.mod_eq_of_lt hxlt]
        omega

lemma alloc_ok (s : EarlyAllocator) (size align addr : Nat) (s' : EarlyAllocator)
    (hb : s.b_pos < USIZE)
    (h : s.alloc size align = some (.ok addr, s')) :
    align ∣ addr ∧ s.b_pos ≤ addr ∧ addr + size ≤ s.p_pos ∧ addr ≠ 0 ∧
      addr = alignedCursor s.b_pos align ∧
      s' = { s with b_pos := addr + size } := by
  unfold alloc at h
  split_ifs at h with h1 h2 h3
  · exact absurd h (by simp)
  · exact absurd h (by simp)
  · simp only [Option.some.injEq, Prod.mk.injEq, AllocResult.ok.injEq] at h
    obtain ⟨haddr, hs'⟩ := h
    subst haddr
    exact ⟨alignedCursor_dvd _ _, alignedCursor_ge _ _ hb h3, by omega, h3, rfl, hs'.symm⟩

lemma alloc_err (s : EarlyAllocator) (size align : Nat) (e : AllocError)
    (s' : EarlyAllocator) (h : s.alloc size align = some (.err e, s')) : s' = s := by
  unfold alloc at h
  split_ifs at h with h1 h2 h3
  · simp only [Option.some.injEq, Prod.mk.injEq] at h
    exact h.2.symm
  · simp only [Option.some.injEq, Prod.mk.injEq] at h
    exact h.2.symm
  · exact absurd h (by simp)

lemma add_memory_err (s : EarlyAllocator) (a sz : Nat) (e : AllocError)
    (s' : EarlyAllocator) (h : s.add_memory a sz = some (.err e, s')) : s' = s := by
  unfold add_memory at h
  set nb := if s.b_pos < a then a else s.b_pos with hnb
  split_ifs at h with h1 h2 h3 h4 h5
  · simp only [Option.some.injEq, Prod.mk.injEq] at h
    exact h.2.symm
  · simp only [Option.some.injEq, Prod.mk.injEq] at h
    exact h.2.symm
  · exact absurd h (by simp)
  · exact absurd h (by simp)
  · simp only [Option.some.injEq, Prod.mk.injEq] at h
    exact h.2.symm

lemma add_memory_ok (s : EarlyAllocator) (a sz : Nat) (s' : EarlyAllocator)
    (h : s.add_memory a sz = some (.ok (), s')) :
    sz ≠ 0 ∧ a + sz < USIZE ∧ ¬(s.start ≤ a ∧ a + sz ≤ s.end_) ∧
      ((a = s.end_ ∧ s' = { s with end_ := a + sz, p_pos := a + sz }) ∨
       (a ≠ s.end_ ∧ a + sz = s.start ∧
        s' = { s with
          start := a
          b_pos := if s.b_pos < a then a else s.b_pos })) := by
  unfold add_memory at h
  set nb := if s.b_pos < a then a else s.b_pos with hnb
  split_ifs at h with h1 h2 h3 h4 h5
  · exact absurd h (by simp)
  · exact absurd h (by simp)
  · simp only [Option.some.injEq, Prod.mk.injEq, AllocResult.ok.injEq] at h
    exact ⟨h1, by omega, h3, Or.inl ⟨h4, h.2.symm⟩⟩
  · simp only [Option.some.injEq, Prod.mk.injEq, AllocResult.ok.injEq] at h
    exact ⟨h1, by omega, h3, Or.inr ⟨h4, h5, h.2.symm⟩⟩
  · exact absurd h (by simp)

lemma inv_init (s : EarlyAllocator) (st sz : Nat) (h : st + sz < USIZE) :
    Inv (s.init st sz) := by
  show st ≤ st ∧ st ≤ (st + sz) % USIZE ∧ (st + sz) % USIZE ≤ (st + sz) % USIZE
  rw [Nat.mod_eq_of_lt h]
  omega

lemma inv_add_memory (s : EarlyAllocator) (a sz : Nat) (r : AllocResult Unit)
    (s' : EarlyAllocator) (hInv : Inv s)
    (h : s.add_memory a sz = some (r, s')) : Inv s' := by
  obtain ⟨h1, h2, h3⟩ := hInv
  rcases r with _ | e
  · obtain ⟨hsz, _, _, hcase⟩ := add_memory_ok s a sz s' h
    rcases hcase with ⟨hfwd, hs'⟩ | ⟨_, hback, hs'⟩
    · subst hs'
      show s.start ≤ s.b_pos ∧ s.b_pos ≤ a + sz ∧ a + sz ≤ a + sz
      omega
    · subst hs'
      show a ≤ (if s.b_pos < a then a else s.b_pos) ∧
        (if s.b_pos < a then a else s.b_pos) ≤ s.p_pos ∧ s.p_pos ≤ s.end_
      split_ifs <;> omega
  · rw [add_memory_err s a sz e s' h]; exact ⟨h1, h2, h3⟩

lemma inv_alloc (s : EarlyAllocator) (size align : Nat) (r : AllocResult Nat)
    (s' : EarlyAllocator) (hInv : Inv s) (hb : s.b_pos < USIZE)
    (h : s.alloc size align = some (r, s')) : Inv s' := by
  obtain ⟨h1, h2, h3⟩ := hInv
  rcases r with addr | e
  · obtain ⟨_, hge, hle, _, _, hs'⟩ := alloc_ok s size align addr s' hb h
    subst hs'
    show s.start ≤ addr + size ∧ addr + size ≤ s.p_pos ∧ s.p_pos ≤ s.end_
    omega
  · rw [alloc_err s size align e s' h]; exact ⟨h1, h2, h3⟩

lemma inv_dealloc (s : EarlyAllocator) (addr size : Nat) (hInv : Inv s) :
    Inv (s.dealloc addr size) := by
  obtain ⟨h1, h2, h3⟩ := hInv
  unfold dealloc
  set eff := if size = 0 then 1 else size with heff
  have hsz1 : (1 : Nat) ≤ eff := by rw [heff]; split <;> omega
  split_ifs with hov hc
  · obtain ⟨hc1, hc2, hc3⟩ := hc
    show s.start ≤ addr ∧ addr ≤ s.p_pos ∧ s.p_pos ≤ s.end_
    omega
  · exact ⟨h1, h2, h3⟩
  · exact ⟨h1, h2, h3⟩

lemma dealloc_eq (s : EarlyAllocator) (addr size : Nat) (hb : s.b_pos < USIZE) :
    s.dealloc addr size =
      if addr + (if size = 0 then 1 else size) = s.b_pos ∧ s.start ≤ addr ∧
          addr + (if size = 0 then 1 else size) ≤ s.end_ then
        { s with b_pos := addr }
      else s := by
  unfold dealloc
  set eff := if size = 0 then 1 else size with heff
  by_cases hov : addr + eff < USIZE
  · rw [if_pos hov]
  · rw [if_neg hov, if_neg]
    intro hcon
    exact absurd hcon.1 (by omega)

lemma allocRun_chain (reqs : List (Nat × Nat)) :
    ∀ s : EarlyAllocator, Inv s → s.end_ < USIZE →
    ∀ sf res, allocRun s reqs = some (sf, res) →
      ChainFrom s.b_pos res ∧ (∀ r ∈ res, r.2.2 ∣ r.1) ∧
      Inv sf ∧ sf.end_ = s.end_ := by
  induction reqs with
  | nil =>
    intro s hInv hend sf res h
    simp only [allocRun, Option.some.injEq, Prod.mk.injEq] at h
    obtain ⟨h1, h2⟩ := h
    subst h1; subst h2
    exact ⟨trivial, by simp, hInv, rfl⟩
  | cons req rest ih =>
    intro s hInv hend sf res h
    obtain ⟨size, align⟩ := req
    obtain ⟨hi1, hi2, hi3⟩ := hInv
    have hb : s.b_pos < USIZE := by omega
    unfold allocRun at h
    split at h
    · exact absurd h (by simp)
    · rename_i addr s' halloc
      obtain ⟨hdvd, hge, hle, _, _, hs'⟩ := alloc_ok s size align addr s' hb halloc
      have hInv' : Inv s' := inv_alloc s size align (.ok addr) s' ⟨hi1, hi2, hi3⟩ hb halloc
      have hend' : s'.end_ = s.end_ := by rw [hs']
      rcases hrest : allocRun s' rest with _ | ⟨sf', res'⟩ <;> rw [hrest] at h
      · simp at h
      · simp only [Option.map_some', Option.some.injEq, Prod.mk.injEq] at h
        obtain ⟨hh1, hh2⟩ := h
        subst hh1; subst hh2
        obtain ⟨hc, hd, he, hf⟩ := ih s' hInv' (by omega) sf' res' hrest
        have hbchain : ChainFrom (addr + size) res' := by
          have hbp : s'.b_pos = addr + size := by rw [hs']
          rwa [hbp] at hc
        refine ⟨?_, ?_, he, by omega⟩
        · show s.b_pos ≤ addr ∧ ChainFrom (addr + size) res'
          exact ⟨hge, hbchain⟩
        · intro r hr
          rcases List.mem_cons.mp hr with hr | hr
          · subst hr; exact hdvd
          · exact hd r hr
    · rename_i e s' halloc
      have hs' : s' = s := alloc_err s size align e s' halloc
      subst hs'
      exact ih _ ⟨hi1, hi2, hi3⟩ hend sf res h

lemma chainFrom_head_le (res : List (Nat × Nat × Nat)) :
    ∀ b, ChainFrom b res → ∀ r ∈ res, b ≤ r.1 := by
  induction res with
  | nil => intro b _ r hr; simp at hr
  | cons r0 rs ih =>
    intro b h r hr
    obtain ⟨hh, ht⟩ := h
    rcases List.mem_cons.mp hr with hr | hr
    · subst hr; exact hh
    · have := ih (r0.1 + r0.2.1) ht r hr
      omega

lemma chainFrom_pairwise (res : List (Nat × Nat × Nat)) :
    ∀ b, ChainFrom b res → res.Pairwise (fun r1 r2 => r1.1 + r1.2.1 ≤ r2.1) := by
  induction res with
  | nil => intro b _; exact List.Pairwise.nil
  | cons r rs ih =>
    intro b h
    obtain ⟨hh, ht⟩ := h
    exact List.Pairwise.cons (chainFrom_head_le rs _ ht) (ih _ ht)

lemma alignedCursor_zero_of_wrap (b_pos align : Nat) (hb : b_pos < USIZE)
    (hwrap : ¬b_pos + (align - 1) < USIZE) :
    alignedCursor b_pos align = 0 := by
  unfold alignedCursor
  have hU : 0 < USIZE := by unfold USIZE; positivity
  by_cases hA : align ≤ USIZE
  · have hxe : (b_pos + (align - 1)) % USIZE = b_pos + (align - 1) - USIZE := by
      rw [Nat.mod_eq_sub_mod (by omega), Nat.mod_eq_of_lt (by omega)]
    rw [hxe, Nat.mod_eq_of_lt (by omega)]
    omega
  · have hxlt : (b_pos + (align - 1)) % USIZE < align := by
      have := Nat.mod_lt (b_pos + (align - 1)) hU
      omega
    rw [Nat.mod_eq_of_lt hxlt]
    omega

lemma alignedCursor_eq_self (b_pos align : Nat) (hdvd : align ∣ b_pos)
    (hb : b_pos < USIZE) (h0 : alignedCursor b_pos align ≠ 0) :
    alignedCursor b_pos align = b_pos := by
  rcases Nat.eq_zero_or_pos align with ha0 | hapos
  · exfalso; apply h0; unfold alignedCursor; simp [ha0]
  · by_cases hwrap : b_pos + (align - 1) < USIZE
    · unfold alignedCursor
      rw [Nat.mod_eq_of_lt hwrap]
      obtain ⟨q, hq⟩ := hdvd
      subst hq
      have hmod : (align * q + (align - 1)) % align = align - 1 := by
        rw [Nat.add_comm, Nat.add_mul_mod_self_left]
        exact Nat.mod_eq_of_lt (by omega)
      omega
    · exact absurd (alignedCursor_zero_of_wrap b_pos align hb hwrap) h0

lemma dealloc_lifo (s : EarlyAllocator) (size align addr : Nat)
    (s' : EarlyAllocator) (hInv : Inv s) (hend : s.end_ < USIZE)
    (hdvd : align ∣ s.b_pos)
    (h : s.alloc size align = some (.ok addr, s')) :
    s'.dealloc addr size = s := by
  obtain ⟨hi1, hi2, hi3⟩ := hInv
  have hb : s.b_pos < USIZE := by omega
  obtain ⟨_, hge, hle, hne0, haddr, hs'⟩ := alloc_ok s size align addr s' hb h
  have haddr' : addr = s.b_pos := by
    rw [haddr]
    exact alignedCursor_eq_self s.b_pos align hdvd hb (haddr ▸ hne0)
  subst hs'
  rcases Nat.eq_zero_or_pos size with hsz | hsz
  · subst hsz
    rw [dealloc_eq _ _ _ (by show addr + 0 < USIZE; omega)]
    rw [if_neg]
    · show ({ s with b_pos := addr + 0 } : EarlyAllocator) = s
      have : addr + 0 = s.b_pos := by omega
      rw [this]
    · rintro ⟨hc1, -, -⟩
      simp only [if_pos rfl] at hc1
      revert hc1
      show ¬addr + 1 = addr + 0
      omega
  · have hsz0 : size ≠ 0 := by omega
    rw [dealloc_eq _ _ _ (by show addr + size < USIZE; omega)]
    have hcond : addr + (if size = 0 then 1 else size) =
        ({ s with b_pos := addr + size } : EarlyAllocator).b_pos ∧
        ({ s with b_pos := addr + size } : EarlyAllocator).start ≤ addr ∧
        addr + (if size = 0 then 1 else size) ≤
          ({ s with b_pos := addr + size } : EarlyAllocator).end_ := by
      rw [if_neg hsz0]
      exact ⟨rfl, by show s.start ≤ addr; omega, by show addr + size ≤ s.end_; omega⟩
    rw [if_pos hcond]
    show ({ s with b_pos := addr } : EarlyAllocator) = s
    rw [haddr']

end AllocatorLemmas

section HashMapLemmas

variable {K V : Type}

lemma bfalse_of_not_true {b : Bool} (h : ¬b = true) : b = false := by
  cases b
  · rfl
  · exact absurd rfl h

lemma lt_length_of_getElem? {α : Type} {l : List α} {i : Nat} {a : α}
    (h : l[i]? = some a) : i < l.length := by
  by_contra hc
  rw [List.getElem?_eq_none (by omega)] at h
  exact absurd h (by simp)

lemma cycDist_lt (cap a b : Nat) (h : 0 < cap) : cycDist cap a b < cap :=
  Nat.mod_lt _ h

lemma mod_shift (cap idx i : Nat) :
    ((idx + 1) % cap + i) % cap = (idx + (i + 1)) % cap := by
  rw [Nat.mod_add_mod]
  congr 1
  omega

lemma cyc_reach (cap a b : Nat) (ha : a < cap) (hb : b < cap) :
    (a + cycDist cap a b) % cap = b := by
  unfold cycDist
  rcases le_or_lt a b with h | h
  · have h1 : b + cap - a = (b - a) + cap := by omega
    rw [h1, Nat.add_mod_right, Nat.mod_eq_of_lt (show b - a < cap by omega)]
    have h2 : a + (b - a) = b := by omega
    rw [h2, Nat.mod_eq_of_lt hb]
  · rw [Nat.mod_eq_of_lt (show b + cap - a < cap by omega)]
    have h2 : a + (b + cap - a) = b + cap := by omega
    rw [h2, Nat.add_mod_right, Nat.mod_eq_of_lt hb]

lemma cycDist_add (cap a d : Nat) (ha : a < cap) (hd : d < cap) :
    cycDist cap a ((a + d) % cap) = d := by
  unfold cycDist
  rcases Nat.lt_or_ge (a + d) cap with h | h
  · rw [Nat.mod_eq_of_lt h]
    have h1 : a + d + cap - a = d + cap := by omega
    rw [h1, Nat.add_mod_right, Nat.mod_eq_of_lt hd]
  · have h0 : (a + d) % cap = a + d - cap := by
      rw [Nat.mod_eq_sub_mod h, Nat.mod_eq_of_lt (by omega)]
    rw [h0]
    have h1 : a + d - cap + cap - a = d := by omega
    rw [h1, Nat.mod_eq_of_lt hd]

lemma scanFrom_sound (p : Option (Bucket K V) → Bool) (t : Table K V) :
    ∀ fuel idx j : Nat, scanFrom p t idx fuel = some j →
      ∃ d, d < fuel ∧ j = (idx + d) % t.length ∧
        (∃ s, t[j]? = some s ∧ p s = true) ∧
        (∀ i, i < d → ∃ s, t[(idx + i) % t.length]? = some s ∧ p s = false) := by
  intro fuel
  induction fuel with
  | zero =>
    intro idx j h
    simp [scanFrom] at h
  | succ fuel ih =>
    intro idx j h
    unfold scanFrom at h
    rcases hslot : t[idx]? with _ | s
    · rw [hslot] at h
      exact absurd h (by simp)
    · rw [hslot] at h
      dsimp only at h
      by_cases hp : p s = true
      · rw [if_pos hp] at h
        simp only [Option.some.injEq] at h
        subst h
        have hidx : idx < t.length := lt_length_of_getElem? hslot
        refine ⟨0, by omega, ?_, ⟨s, hslot, hp⟩, by intro i hi; omega⟩
        rw [Nat.add_zero, Nat.mod_eq_of_lt hidx]
      · rw [if_neg hp] at h
        obtain ⟨d, hd, hj, hhit, hmiss⟩ := ih ((idx + 1) % t.length) j h
        refine ⟨d + 1, by omega, ?_, hhit, ?_⟩
        · rw [hj, mod_shift]
        · intro i hi
          rcases Nat.eq_zero_or_pos i with hi0 | hipos
          · subst hi0
            have hidx : idx < t.length := lt_length_of_getElem? hslot
            rw [Nat.add_zero, Nat.mod_eq_of_lt hidx]
            exact ⟨s, hslot, bfalse_of_not_true hp⟩
          · obtain ⟨i', rfl⟩ : ∃ i', i = i' + 1 := ⟨i - 1, by omega⟩
            have hm := hmiss i' (by omega)
            rwa [mod_shift] at hm

lemma scanFrom_complete (p : Option (Bucket K V) → Bool) (t : Table K V) :
    ∀ fuel idx : Nat, idx < t.length →
      (∃ d, d < fuel ∧ ∃ s, t[(idx + d) % t.length]? = some s ∧ p s = true) →
      (scanFrom p t idx fuel).isSome := by
  intro fuel
  induction fuel with
  | zero =>
    rintro idx _ ⟨d, hd, -⟩
    omega
  | succ fuel ih =>
    rintro idx hidx ⟨d, hd, s, hs, hps⟩
    unfold scanFrom
    have hslot : t[idx]? = some t[idx] := List.getElem?_eq_getElem hidx
    rw [hslot]
    dsimp only
    by_cases hp : p t[idx] = true
    · rw [if_pos hp]
      rfl
    · rw [if_neg hp]
      have hcap : 0 < t.length := by omega
      apply ih ((idx + 1) % t.length) (Nat.mod_lt _ hcap)
      have hd0 : d ≠ 0 := by
        intro h0
        subst h0
        rw [Nat.add_zero, Nat.mod_eq_of_lt hidx, hslot] at hs
        simp only [Option.some.injEq] at hs
        subst hs
        exact hp hps
      refine ⟨d - 1, by omega, s, ?_, hps⟩
      rw [mod_shift]
      have hde : d - 1 + 1 = d := by omega
      rw [hde]
      exact hs

lemma exists_none_of_countP_lt (t : Table K V)
    (h : t.countP (fun s => s.isSome) < t.length) :
    ∃ e, e < t.length ∧ t[e]? = some none := by
  by_contra hc
  push_neg at hc
  have hall : ∀ s ∈ t, (fun s : Option (Bucket K V) => s.isSome) s = true := by
    intro s hs
    obtain ⟨i, hi, hgi⟩ := List.getElem_of_mem hs
    rcases s with _ | b
    · exfalso
      apply hc i hi
      rw [List.getElem?_eq_getElem hi, hgi]
    · rfl
  have := List.countP_eq_length.mpr hall
  omega

end HashMapLemmas

section ProbeLemmas

variable {K V : Type} [DecidableEq K]

lemma scan_finds_key (sip : Nat → K → Nat) (seed : Nat) (t : Table K V)
    (hInv : TableInv sip seed t) {j : Nat} {b : Bucket K V}
    (hj : t[j]? = some (some b)) :
    scanFrom (slotKeyHit b.key) t (indexForSeed sip seed b.key t.length) t.length
      = some j := by
  have hjlt : j < t.length := lt_length_of_getElem? hj
  have hcap : 0 < t.length := by omega
  have hklt : indexForSeed sip seed b.key t.length < t.length := Nat.mod_lt _ hcap
  have hsome : (scanFrom (slotKeyHit b.key) t
      (indexForSeed sip seed b.key t.length) t.length).isSome := by
    apply scanFrom_complete
    · exact hklt
    · refine ⟨cycDist t.length (indexForSeed sip seed b.key t.length) j,
        cycDist_lt _ _ _ hcap, some b, ?_, ?_⟩
      · rw [cyc_reach _ _ _ hklt hjlt]
        exact hj
      · simp [slotKeyHit]
  obtain ⟨j', hscan⟩ := Option.isSome_iff_exists.mp hsome
  obtain ⟨d', hd', hj', hhit, hmiss⟩ :=
    scanFrom_sound (slotKeyHit b.key) t t.length
      (indexForSeed sip seed b.key t.length) j' hscan
  have hdj' : cycDist t.length (indexForSeed sip seed b.key t.length) j' = d' := by
    rw [hj']
    exact cycDist_add _ _ _ hklt hd'
  rw [hscan]
  congr 1
  rcases lt_trichotomy d' (cycDist t.length (indexForSeed sip seed b.key t.length) j)
    with hlt | heq | hgt
  · exfalso
    obtain ⟨b', hb'⟩ := hInv.path j b hj d' hlt
    rw [← hj'] at hb'
    obtain ⟨s, hs, hps⟩ := hhit
    rw [hb'] at hs
    simp only [Option.some.injEq] at hs
    subst hs
    simp only [slotKeyHit, decide_eq_true_eq] at hps
    have hjj := hInv.distinct j' j b' b hb' hj hps
    subst hjj
    rw [hdj'] at hlt
    omega
  · obtain ⟨s, hs, -⟩ := hhit
    have hj'lt : j' < t.length := lt_length_of_getElem? hs
    have h1 := cyc_reach t.length (indexForSeed sip seed b.key t.length) j' hklt hj'lt
    have h2 := cyc_reach t.length (indexForSeed sip seed b.key t.length) j hklt hjlt
    rw [← hdj'] at heq
    rw [heq] at h1
    rw [h2] at h1
    exact h1.symm
  · exfalso
    obtain ⟨s, hs, hps⟩ :=
      hmiss (cycDist t.length (indexForSeed sip seed b.key t.length) j) hgt
    rw [cyc_reach _ _ _ hklt hjlt] at hs
    rw [hj] at hs
    simp only [Option.some.injEq] at hs
    subst hs
    simp [slotKeyHit] at hps

lemma scan_found_none_not_mem (sip : Nat → K → Nat) (seed : Nat) (t : Table K V)
    (hInv : TableInv sip seed t) (k : K) {j : Nat}
    (hscan : scanFrom (slotKeyHit k) t (indexForSeed sip seed k t.length) t.length
      = some j)
    (hnone : t[j]? = some none) :
    ∀ (j' : Nat) (b : Bucket K V), t[j']? = some (some b) → b.key ≠ k := by
  intro j' b hj' hbk
  subst hbk
  have h2 := scan_finds_key sip seed t hInv hj'
  rw [hscan] at h2
  simp only [Option.some.injEq] at h2
  subst h2
  rw [hj'] at hnone
  simp at hnone

lemma scan_key_isSome (sip : Nat → K → Nat) (seed : Nat) (t : Table K V) (k : K)
    (hempty : ∃ e, e < t.length ∧ t[e]? = some none) :
    (scanFrom (slotKeyHit k) t (indexForSeed sip seed k t.length) t.length).isSome := by
  obtain ⟨e, he, hne⟩ := hempty
  have hcap : 0 < t.length := by omega
  have hklt : indexForSeed sip seed k t.length < t.length := Nat.mod_lt _ hcap
  apply scanFrom_complete
  · exact hklt
  · exact ⟨cycDist t.length (indexForSeed sip seed k t.length) e,
      cycDist_lt _ _ _ hcap, none,
      by rw [cyc_reach _ _ _ hklt he]; exact hne, rfl⟩

lemma scan_empty_isSome (t : Table K V) (idx : Nat) (hidx : idx < t.length)
    (hempty : ∃ e, e < t.length ∧ t[e]? = some none) :
    (scanFrom slotEmpty t idx t.length).isSome := by
  obtain ⟨e, he, hne⟩ := hempty
  have hcap : 0 < t.length := by omega
  apply scanFrom_complete
  · exact hidx
  · exact ⟨cycDist t.length idx e, cycDist_lt _ _ _ hcap, none,
      by rw [cyc_reach _ _ _ hidx he]; exact hne, rfl⟩

lemma scan_key_path (sip : Nat → K → Nat) (seed : Nat) (t : Table K V) (k : K)
    {j : Nat}
    (hscan : scanFrom (slotKeyHit k) t (indexForSeed sip seed k t.length) t.length
      = some j)
    (hcap : 0 < t.length) :
    ∀ i, i < cycDist t.length (indexForSeed sip seed k t.length) j →
      FullAt t ((indexForSeed sip seed k t.length + i) % t.length) := by
  obtain ⟨d, hd, hj, hhit, hmiss⟩ := scanFrom_sound _ t t.length _ j hscan
  have hklt : indexForSeed sip seed k t.length < t.length := Nat.mod_lt _ hcap
  have hdd : cycDist t.length (indexForSeed sip seed k t.length) j = d := by
    rw [hj]
    exact cycDist_add _ _ _ hklt hd
  rw [hdd]
  intro i hi
  obtain ⟨s, hs, hps⟩ := hmiss i hi
  rcases s with _ | b'
  · simp [slotKeyHit] at hps
  · exact ⟨b', hs⟩

lemma scan_empty_found (t : Table K V) (idx : Nat) (hidx : idx < t.length)
    {j : Nat} (hscan : scanFrom slotEmpty t idx t.length = some j) :
    t[j]? = some none ∧ j < t.length ∧
    (∀ i, i < cycDist t.length idx j → FullAt t ((idx + i) % t.length)) := by
  obtain ⟨d, hd, hj, hhit, hmiss⟩ := scanFrom_sound _ t t.length _ j hscan
  obtain ⟨s, hs, hps⟩ := hhit
  have hsn : s = none := by
    rcases s with _ | b
    · rfl
    · simp [slotEmpty] at hps
  subst hsn
  have hdd : cycDist t.length idx j = d := by
    rw [hj]
    exact cycDist_add _ _ _ hidx hd
  refine ⟨hs, lt_length_of_getElem? hs, ?_⟩
  rw [hdd]
  intro i hi
  obtain ⟨s', hs', hps'⟩ := hmiss i hi
  rcases s' with _ | b'
  · simp [slotEmpty] at hps'
  · exact ⟨b', hs'⟩

lemma fullAt_set_some (t : Table K V) (j i : Nat) (b : Bucket K V)
    (h : FullAt t i) : FullAt (t.set j (some b)) i := by
  obtain ⟨b', hb'⟩ := h
  by_cases hij : j = i
  · subst hij
    exact ⟨b, List.getElem?_set_self (lt_length_of_getElem? hb')⟩
  · exact ⟨b', by rw [List.getElem?_set_ne hij]; exact hb'⟩

lemma countP_set_none_some (t : Table K V) :
    ∀ (j : Nat) (b : Bucket K V), t[j]? = some none →
      (t.set j (some b)).countP (fun s => s.isSome) =
        t.countP (fun s => s.isSome) + 1 := by
  induction t with
  | nil =>
    intro j b h
    simp at h
  | cons s rest ih =>
    intro j b h
    cases j with
    | zero =>
      simp only [List.getElem?_cons_zero, Option.some.injEq] at h
      subst h
      simp [List.countP_cons]
    | succ j =>
      simp only [List.getElem?_cons_succ] at h
      have ihh := ih j b h
      simp only [List.set_cons_succ, List.countP_cons]
      omega

lemma countP_set_some_some (t : Table K V) :
    ∀ (j : Nat) (b0 b : Bucket K V), t[j]? = some (some b0) →
      (t.set j (some b)).countP (fun s => s.isSome) =
        t.countP (fun s => s.isSome) := by
  induction t with
  | nil =>
    intro j b0 b h
    simp at h
  | cons s rest ih =>
    intro j b0 b h
    cases j with
    | zero =>
      simp only [List.getElem?_cons_zero, Option.some.injEq] at h
      subst h
      simp [List.countP_cons]
    | succ j =>
      simp only [List.getElem?_cons_succ] at h
      have ihh := ih j b0 b h
      simp only [List.set_cons_succ, List.countP_cons]
      omega

lemma insertSlot_spec (sip : Nat → K → Nat) (seed : Nat) (t : Table K V)
    (hInv : TableInv sip seed t) (b : Bucket K V) (j : Nat)
    (hj : t[j]? = some none)
    (hpath : ∀ i, i < cycDist t.length (indexForSeed sip seed b.key t.length) j →
      FullAt t ((indexForSeed sip seed b.key t.length + i) % t.length))
    (hnotmem : ∀ (j' : Nat) (b' : Bucket K V), t[j']? = some (some b') →
      b'.key ≠ b.key) :
    TableInv sip seed (t.set j (some b)) ∧
    (t.set j (some b)).countP (fun s => s.isSome) =
      t.countP (fun s => s.isSome) + 1 ∧
    (∀ (k' : K) (v' : V), MapsTo (t.set j (some b)) k' v' ↔
      ((k' = b.key ∧ v' = b.value) ∨ (k' ≠ b.key ∧ MapsTo t k' v'))) := by
  have hjlt : j < t.length := lt_length_of_getElem? hj
  have hlen : (t.set j (some b)).length = t.length := List.length_set t j _
  refine ⟨⟨?_, ?_⟩, countP_set_none_some t j b hj, ?_⟩
  · intro i i' bi bi' hi hi' hkey
    by_cases hij : j = i <;> by_cases hij' : j = i'
    · omega
    · subst hij
      rw [List.getElem?_set_self hjlt] at hi
      simp only [Option.some.injEq] at hi
      subst hi
      rw [List.getElem?_set_ne hij'] at hi'
      exact absurd hkey.symm (hnotmem i' bi' hi')
    · subst hij'
      rw [List.getElem?_set_self hjlt] at hi'
      simp only [Option.some.injEq] at hi'
      subst hi'
      rw [List.getElem?_set_ne hij] at hi
      exact absurd hkey (hnotmem i bi hi)
    · rw [List.getElem?_set_ne hij] at hi
      rw [List.getElem?_set_ne hij'] at hi'
      exact hInv.distinct i i' bi bi' hi hi' hkey
  · intro j0 b0 hj0 i hi
    rw [hlen] at hi ⊢
    by_cases hjj : j = j0
    · subst hjj
      rw [List.getElem?_set_self hjlt] at hj0
      simp only [Option.some.injEq] at hj0
      subst hj0
      exact fullAt_set_some t j _ b (hpath i hi)
    · rw [List.getElem?_set_ne hjj] at hj0
      exact fullAt_set_some t j _ b (hInv.path j0 b0 hj0 i hi)
  · intro k' v'
    constructor
    · rintro ⟨j0, b0, hj0, hk0, hv0⟩
      by_cases hjj : j = j0
      · subst hjj
        rw [List.getElem?_set_self hjlt] at hj0
        simp only [Option.some.injEq] at hj0
        subst hj0
        exact Or.inl ⟨hk0.symm, hv0.symm⟩
      · rw [List.getElem?_set_ne hjj] at hj0
        have hne : k' ≠ b.key := by
          intro hh
          exact hnotmem j0 b0 hj0 (by rw [hk0, hh])
        exact Or.inr ⟨hne, ⟨j0, b0, hj0, hk0, hv0⟩⟩
    · rintro (⟨hk, hv⟩ | ⟨hne, j0, b0, hj0, hk0, hv0⟩)
      · exact ⟨j, b, List.getElem?_set_self hjlt, hk.symm, hv.symm⟩
      · have hjj : j ≠ j0 := by
          intro hh
          subst hh
          rw [hj0] at hj
          simp at hj
        exact ⟨j0, b0, by rw [List.getElem?_set_ne hjj]; exact hj0, hk0, hv0⟩

lemma updateSlot_spec (sip : Nat → K → Nat) (seed : Nat) (t : Table K V)
    (hInv : TableInv sip seed t) (bOld b : Bucket K V) (j : Nat)
    (hj : t[j]? = some (some bOld)) (hkey : bOld.key = b.key) :
    TableInv sip seed (t.set j (some b)) ∧
    (t.set j (some b)).countP (fun s => s.isSome) =
      t.countP (fun s => s.isSome) ∧
    (∀ (k' : K) (v' : V), MapsTo (t.set j (some b)) k' v' ↔
      ((k' = b.key ∧ v' = b.value) ∨ (k' ≠ b.key ∧ MapsTo t k' v'))) := by
  have hjlt : j < t.length := lt_length_of_getElem? hj
  have hlen : (t.set j (some b)).length = t.length := List.length_set t j _
  refine ⟨⟨?_, ?_⟩, countP_set_some_some t j bOld b hj, ?_⟩
  · intro i i' bi bi' hi hi' hkey'
    by_cases hij : j = i <;> by_cases hij' : j = i'
    · omega
    · subst hij
      rw [List.getElem?_set_self hjlt] at hi
      simp only [Option.some.injEq] at hi
      subst hi
      rw [List.getElem?_set_ne hij'] at hi'
      exact absurd (hInv.distinct i' j bi' bOld hi' hj (by rw [← hkey', hkey]))
        (by omega)
    · subst hij'
      rw [List.getElem?_set_self hjlt] at hi'
      simp only [Option.some.injEq] at hi'
      subst hi'
      rw [List.getElem?_set_ne hij] at hi
      exact absurd (hInv.distinct i j bi bOld hi hj (by rw [hkey', hkey]))
        (by omega)
    · rw [List.getElem?_set_ne hij] at hi
      rw [List.getElem?_set_ne hij'] at hi'
      exact hInv.distinct i i' bi bi' hi hi' hkey'
  · intro j0 b0 hj0 i hi
    rw [hlen] at hi ⊢
    by_cases hjj : j = j0
    · subst hjj
      rw [List.getElem?_set_self hjlt] at hj0
      simp only [Option.some.injEq] at hj0
      subst hj0
      rw [← hkey] at hi ⊢
      exact fullAt_set_some t j _ _ (hInv.path j bOld hj i hi)
    · rw [List.getElem?_set_ne hjj] at hj0
      exact fullAt_set_some t j _ _ (hInv.path j0 b0 hj0 i hi)
  · intro k' v'
    constructor
    · rintro ⟨j0, b0, hj0, hk0, hv0⟩
      by_cases hjj : j = j0
      · subst hjj
        rw [List.getElem?_set_self hjlt] at hj0
        simp only [Option.some.injEq] at hj0
        subst hj0
        exact Or.inl ⟨hk0.symm, hv0.symm⟩
      · rw [List.getElem?_set_ne hjj] at hj0
        have hne : k' ≠ b.key := by
          intro hh
          have := hInv.distinct j0 j b0 bOld hj0 hj (by rw [hk0, hh, ← hkey])
          omega
        exact Or.inr ⟨hne, ⟨j0, b0, hj0, hk0, hv0⟩⟩
    · rintro (⟨hk, hv⟩ | ⟨hne, j0, b0, hj0, hk0, hv0⟩)
      · exact ⟨j, b, List.getElem?_set_self hjlt, hk.symm, hv.symm⟩
      · have hjj : j ≠ j0 := by
          intro hh
          subst hh
          rw [hj0] at hj
          simp only [Option.some.injEq] at hj
          apply hne
          rw [← hk0, hj, hkey]
        exact ⟨j0, b0, by rw [List.getElem?_set_ne hjj]; exact hj0, hk0, hv0⟩

end ProbeLemmas

section GrowLemmas

variable {K V : Type} [DecidableEq K]

lemma length_filterMap_id (t : Table K V) :
    (t.filterMap id).length = t.countP (fun s => s.isSome) := by
  induction t with
  | nil => rfl
  | cons s rest ih =>
    rcases s with _ | b
    · rw [show ((none : Option (Bucket K V)) :: rest).filterMap id =
        rest.filterMap id from rfl]
      simp [List.countP_cons, ih]
    · rw [show ((some b : Option (Bucket K V)) :: rest).filterMap id =
        b :: rest.filterMap id from rfl]
      simp [List.countP_cons, ih]

lemma mem_entries_iff (t : Table K V) (b : Bucket K V) :
    b ∈ t.filterMap id ↔ ∃ j : Nat, t[j]? = some (some b) := by
  rw [List.mem_filterMap]
  constructor
  · rintro ⟨s, hs, hsb⟩
    obtain ⟨i, hi, hgi⟩ := List.getElem_of_mem hs
    refine ⟨i, ?_⟩
    rw [List.getElem?_eq_getElem hi, hgi]
    simp only [id_eq] at hsb
    rw [hsb]
  · rintro ⟨j, hj⟩
    have hjl : j < t.length := lt_length_of_getElem? hj
    refine ⟨some b, ?_, rfl⟩
    rw [List.getElem?_eq_getElem hjl] at hj
    simp only [Option.some.injEq] at hj
    exact hj ▸ List.getElem_mem hjl

lemma entries_keys_nodup (t : Table K V)
    (hdis : ∀ (i j : Nat) (bi bj : Bucket K V), t[i]? = some (some bi) →
      t[j]? = some (some bj) → bi.key = bj.key → i = j) :
    ((t.filterMap id).map (fun b => b.key)).Nodup := by
  induction t with
  | nil => simp
  | cons s rest ih =>
    have hdisr : ∀ (i j : Nat) (bi bj : Bucket K V), rest[i]? = some (some bi) →
        rest[j]? = some (some bj) → bi.key = bj.key → i = j := by
      intro i j bi bj hi hj hk
      have := hdis (i + 1) (j + 1) bi bj (by simpa using hi) (by simpa using hj) hk
      omega
    rcases s with _ | b
    · rw [show ((none : Option (Bucket K V)) :: rest).filterMap id =
        rest.filterMap id from rfl]
      exact ih hdisr
    · have hmem : b.key ∉ (rest.filterMap id).map (fun b => b.key) := by
        intro hmem
        obtain ⟨b', hb', hkb⟩ := List.mem_map.mp hmem
        obtain ⟨j, hj⟩ := (mem_entries_iff rest b').mp hb'
        have := hdis 0 (j + 1) b b' (by simp) (by simpa using hj) hkb.symm
        omega
      rw [show ((some b : Option (Bucket K V)) :: rest).filterMap id =
        b :: rest.filterMap id from rfl, List.map_cons, List.nodup_cons]
      exact ⟨hmem, ih hdisr⟩

lemma exists_entry_iff_mapsTo (t : Table K V) (k : K) (v : V) :
    (∃ b ∈ t.filterMap id, b.key = k ∧ b.value = v) ↔ MapsTo t k v := by
  constructor
  · rintro ⟨b, hb, hk, hv⟩
    obtain ⟨j, hj⟩ := (mem_entries_iff t b).mp hb
    exact ⟨j, b, hj, hk, hv⟩
  · rintro ⟨j, b, hj, hk, hv⟩
    exact ⟨b, (mem_entries_iff t b).mpr ⟨j, hj⟩, hk, hv⟩

lemma tableInv_replicate (sip : Nat → K → Nat) (seed n : Nat) :
    TableInv sip seed (List.replicate n (none : Option (Bucket K V))) := by
  constructor
  · intro i j bi bj hi _ _
    exfalso
    rw [List.getElem?_replicate] at hi
    by_cases h : i < n <;> simp [h] at hi
  · intro j b hj
    exfalso
    rw [List.getElem?_replicate] at hj
    by_cases h : j < n <;> simp [h] at hj

lemma countP_replicate_none (n : Nat) :
    (List.replicate n (none : Option (Bucket K V))).countP
      (fun s => s.isSome) = 0 := by
  induction n with
  | zero => rfl
  | succ n ih => simp [List.replicate_succ, List.countP_cons, ih]

lemma mapsTo_replicate (n : Nat) (k : K) (v : V) :
    ¬MapsTo (List.replicate n (none : Option (Bucket K V))) k v := by
  rintro ⟨j, b, hj, -, -⟩
  rw [List.getElem?_replicate] at hj
  by_cases h : j < n <;> simp [h] at hj

lemma placeEntry_spec (sip : Nat → K → Nat) (seed : Nat) (t : Table K V)
    (hInv : TableInv sip seed t) (b : Bucket K V)
    (hroom : t.countP (fun s => s.isSome) < t.length)
    (hnotmem : ∀ (j' : Nat) (b' : Bucket K V), t[j']? = some (some b') →
      b'.key ≠ b.key) :
    TableInv sip seed (HashMap.placeEntry b t (indexForSeed sip seed b.key t.length)) ∧
    (HashMap.placeEntry b t (indexForSeed sip seed b.key t.length)).length = t.length ∧
    (HashMap.placeEntry b t (indexForSeed sip seed b.key t.length)).countP
      (fun s => s.isSome) = t.countP (fun s => s.isSome) + 1 ∧
    (∀ (k' : K) (v' : V),
      MapsTo (HashMap.placeEntry b t (indexForSeed sip seed b.key t.length)) k' v' ↔
      ((k' = b.key ∧ v' = b.value) ∨ (k' ≠ b.key ∧ MapsTo t k' v'))) := by
  have hcap : 0 < t.length := by omega
  have hidx : indexForSeed sip seed b.key t.length < t.length := Nat.mod_lt _ hcap
  have hempty := exists_none_of_countP_lt t hroom
  have hsome := scan_empty_isSome t _ hidx hempty
  obtain ⟨j, hscan⟩ := Option.isSome_iff_exists.mp hsome
  obtain ⟨hjnone, hjlt, hpath⟩ := scan_empty_found t _ hidx hscan
  have heq : HashMap.placeEntry b t (indexForSeed sip seed b.key t.length) =
      t.set j (some b) := by
    unfold HashMap.placeEntry
    rw [hscan]
  rw [heq]
  obtain ⟨hInv', hcount', hmaps'⟩ :=
    insertSlot_spec sip seed t hInv b j hjnone hpath hnotmem
  exact ⟨hInv', List.length_set t j _, hcount', hmaps'⟩

lemma rehashInto_eq_foldl (sip : Nat → K → Nat) (seed : Nat) :
    ∀ old acc : Table K V,
      HashMap.rehashInto sip seed old acc =
        (old.filterMap id).foldl (fun a b =>
          HashMap.placeEntry b a (indexForSeed sip seed b.key a.length)) acc := by
  intro old
  induction old with
  | nil => intro acc; rfl
  | cons s rest ih =>
    intro acc
    rcases s with _ | b
    · exact ih acc
    · exact ih (HashMap.placeEntry b acc (indexForSeed sip seed b.key acc.length))

lemma placeList_spec (sip : Nat → K → Nat) (seed : Nat) :
    ∀ (es : List (Bucket K V)) (acc : Table K V),
      TableInv sip seed acc →
      ((es.map (fun b => b.key)).Nodup) →
      (∀ b ∈ es, ∀ (j : Nat) (b' : Bucket K V), acc[j]? = some (some b') →
        b'.key ≠ b.key) →
      acc.countP (fun s => s.isSome) + es.length ≤ acc.length →
      TableInv sip seed (es.foldl (fun a b =>
        HashMap.placeEntry b a (indexForSeed sip seed b.key a.length)) acc) ∧
      (es.foldl (fun a b =>
        HashMap.placeEntry b a (indexForSeed sip seed b.key a.length)) acc).length =
        acc.length ∧
      (es.foldl (fun a b =>
        HashMap.placeEntry b a (indexForSeed sip seed b.key a.length)) acc).countP
        (fun s => s.isSome) = acc.countP (fun s => s.isSome) + es.length ∧
      (∀ (k : K) (v : V), MapsTo (es.foldl (fun a b =>
        HashMap.placeEntry b a (indexForSeed sip seed b.key a.length)) acc) k v ↔
        (MapsTo acc k v ∨ ∃ b ∈ es, b.key = k ∧ b.value = v)) := by
  intro es
  induction es with
  | nil =>
    intro acc hInv _ _ _
    refine ⟨hInv, rfl, by simp, by simp⟩
  | cons b es ih =>
    intro acc hInv hnd hdisj hroom
    rw [List.map_cons, List.nodup_cons] at hnd
    obtain ⟨hndb, hnd'⟩ := hnd
    have hroomb : acc.countP (fun s => s.isSome) < acc.length := by
      simp only [List.length_cons] at hroom
      omega
    obtain ⟨hInv1, hlen1, hcount1, hmaps1⟩ :=
      placeEntry_spec sip seed acc hInv b hroomb
        (hdisj b (List.mem_cons_self b es))
    rw [List.foldl_cons]
    have hdisj1 : ∀ b'' ∈ es, ∀ (j : Nat) (b' : Bucket K V),
        (HashMap.placeEntry b acc (indexForSeed sip seed b.key acc.length))[j]? =
          some (some b') → b'.key ≠ b''.key := by
      intro b'' hb'' j b' hj' hkb
      have hm : MapsTo (HashMap.placeEntry b acc (indexForSeed sip seed b.key acc.length))
          b'.key b'.value := ⟨j, b', hj', rfl, rfl⟩
      rcases (hmaps1 b'.key b'.value).mp hm with ⟨hk1, -⟩ | ⟨-, hm2⟩
      · apply hndb
        rw [← hk1, hkb]
        exact List.mem_map.mpr ⟨b'', hb'', rfl⟩
      · obtain ⟨j0, b0, hj0, hk0, -⟩ := hm2
        apply hdisj b'' (List.mem_cons_of_mem b hb'') j0 b0 hj0
        rw [hk0, hkb]
    have hroom1 : (HashMap.placeEntry b acc
        (indexForSeed sip seed b.key acc.length)).countP (fun s => s.isSome) +
        es.length ≤
        (HashMap.placeEntry b acc (indexForSeed sip seed b.key acc.length)).length := by
      rw [hcount1, hlen1]
      simp only [List.length_cons] at hroom
      omega
    obtain ⟨hInv2, hlen2, hcount2, hmaps2⟩ := ih _ hInv1 hnd' hdisj1 hroom1
    refine ⟨hInv2, by rw [hlen2, hlen1], ?_, ?_⟩
    · rw [hcount2, hcount1]
      simp only [List.length_cons]
      omega
    · intro k v
      rw [hmaps2 k v]
      constructor
      · rintro (hacc1 | hes)
        · rcases (hmaps1 k v).mp hacc1 with ⟨hk, hv⟩ | ⟨-, hacc⟩
          · exact Or.inr ⟨b, List.mem_cons_self b es, hk.symm, hv.symm⟩
          · exact Or.inl hacc
        · obtain ⟨b', hb', hk', hv'⟩ := hes
          exact Or.inr ⟨b', List.mem_cons_of_mem b hb', hk', hv'⟩
      · rintro (hacc | ⟨b', hb', hk', hv'⟩)
        · left
          apply (hmaps1 k v).mpr
          right
          refine ⟨?_, hacc⟩
          intro hk
          obtain ⟨j0, b0, hj0, hk0, -⟩ := hacc
          exact hdisj b (List.mem_cons_self b es) j0 b0 hj0 (by rw [hk0, hk])
        · rcases List.mem_cons.mp hb' with hb0 | hbtail
          · subst hb0
            left
            exact (hmaps1 k v).mpr (Or.inl ⟨hk'.symm, hv'.symm⟩)
          · exact Or.inr ⟨b', hbtail, hk', hv'⟩

lemma grow_spec (sip : Nat → K → Nat) (m : HashMap K V) (hInv : MapInv sip m) :
    MapInv sip (m.grow sip) ∧ (m.grow sip).len = m.len ∧
    (m.grow sip).seed = m.seed ∧
    (m.grow sip).buckets.length =
      (if m.buckets.length * 2 < USIZE then m.buckets.length * 2
       else m.buckets.length + 1) ∧
    (∀ (k : K) (v : V), MapsTo (m.grow sip).buckets k v ↔ MapsTo m.buckets k v) := by
  obtain ⟨hcapLB, hlenLT, hlenEq, htbl⟩ := hInv
  have hes_len : (m.buckets.filterMap id).length =
      m.buckets.countP (fun s => s.isSome) := length_filterMap_id m.buckets
  have hbuckets : (m.grow sip).buckets =
      (m.buckets.filterMap id).foldl (fun a b =>
        HashMap.placeEntry b a (indexForSeed sip m.seed b.key a.length))
      (List.replicate (if m.buckets.length * 2 < USIZE then m.buckets.length * 2
        else m.buckets.length + 1) none) := by
    show HashMap.rehashInto sip m.seed m.buckets _ = _
    rw [rehashInto_eq_foldl]
  have hnd : ((m.buckets.filterMap id).map (fun b => b.key)).Nodup :=
    entries_keys_nodup m.buckets htbl.distinct
  obtain ⟨hI, hL, hCnt, hM⟩ := placeList_spec sip m.seed (m.buckets.filterMap id)
    (List.replicate (if m.buckets.length * 2 < USIZE then m.buckets.length * 2
      else m.buckets.length + 1) none)
    (tableInv_replicate sip m.seed _)
    hnd
    (by
      intro b _ j b' hj' _
      rw [List.getElem?_replicate] at hj'
      by_cases h : j < (if m.buckets.length * 2 < USIZE then m.buckets.length * 2
        else m.buckets.length + 1) <;> simp [h] at hj')
    (by
      rw [countP_replicate_none, List.length_replicate, hes_len]
      split <;> omega)
  have hlen' : (m.grow sip).buckets.length =
      (if m.buckets.length * 2 < USIZE then m.buckets.length * 2
       else m.buckets.length + 1) := by
    rw [hbuckets, hL, List.length_replicate]
  have hmaps' : ∀ (k : K) (v : V),
      MapsTo (m.grow sip).buckets k v ↔ MapsTo m.buckets k v := by
    intro k v
    rw [hbuckets, hM k v]
    constructor
    · rintro (habs | hes)
      · exact absurd habs (mapsTo_replicate _ k v)
      · exact (exists_entry_iff_mapsTo m.buckets k v).mp hes
    · intro hm
      exact Or.inr ((exists_entry_iff_mapsTo m.buckets k v).mpr hm)
  have hglen : (m.grow sip).len = m.len := rfl
  have hgseed : (m.grow sip).seed = m.seed := rfl
  refine ⟨⟨?_, ?_, ?_, ?_⟩, hglen, hgseed, hlen', hmaps'⟩
  · rw [hlen']
    split <;> omega
  · rw [hglen, hlen']
    split <;> omega
  · rw [hglen, hbuckets, hCnt, countP_replicate_none, hes_len]
    omega
  · rw [hbuckets]
    exact hI

end GrowLemmas

section InsertLemmas

variable {K V : Type} [DecidableEq K]

lemma insertRaw_spec (sip : Nat → K → Nat) (m : HashMap K V) (hInv : MapInv sip m)
    (k : K) (v : V) :
    (m.insertRaw sip k v).buckets.length = m.buckets.length ∧
    (m.insertRaw sip k v).seed = m.seed ∧
    TableInv sip m.seed (m.insertRaw sip k v).buckets ∧
    (m.insertRaw sip k v).len =
      (m.insertRaw sip k v).buckets.countP (fun s => s.isSome) ∧
    ((∃ v0, MapsTo m.buckets k v0) → (m.insertRaw sip k v).len = m.len) ∧
    ((¬∃ v0, MapsTo m.buckets k v0) → (m.insertRaw sip k v).len = m.len + 1) ∧
    (∀ (k' : K) (v' : V), MapsTo (m.insertRaw sip k v).buckets k' v' ↔
      ((k' = k ∧ v' = v) ∨ (k' ≠ k ∧ MapsTo m.buckets k' v'))) := by
  obtain ⟨hcapLB, hlenLT, hlenEq, htbl⟩ := hInv
  have hcap : 0 < m.buckets.length := by omega
  have hempty : ∃ e, e < m.buckets.length ∧ m.buckets[e]? = some none :=
    exists_none_of_countP_lt m.buckets (by omega)
  have hsome : (scanFrom (slotKeyHit k) m.buckets (m.hashIdx sip k)
      m.buckets.length).isSome :=
    scan_key_isSome sip m.seed m.buckets k hempty
  obtain ⟨j, hscan⟩ := Option.isSome_iff_exists.mp hsome
  have hscan' : scanFrom (slotKeyHit k) m.buckets
      (indexForSeed sip m.seed k m.buckets.length) m.buckets.length = some j := hscan
  obtain ⟨d, hd, hj, ⟨s0, hs0, hps0⟩, hmiss⟩ :=
    scanFrom_sound (slotKeyHit k) m.buckets m.buckets.length (m.hashIdx sip k) j hscan
  rcases hslot : m.buckets[j]? with _ | s
  · rw [hslot] at hs0
    exact absurd hs0 (by simp)
  · rw [hslot] at hs0
    simp only [Option.some.injEq] at hs0
    subst hs0
    have heq : m.insertRaw sip k v = (match m.buckets[j]? with
      | some (some _) =>
          { m with buckets := m.buckets.set j (some ⟨k, v⟩) }
      | _ =>
          { m with buckets := m.buckets.set j (some ⟨k, v⟩), len := m.len + 1 }) := by
      unfold HashMap.insertRaw
      rw [hscan]
    rw [hslot] at heq
    rcases s with _ | bOld
    · dsimp only at heq
      have hpath := scan_key_path sip m.seed m.buckets k hscan' hcap
      have hnotmem := scan_found_none_not_mem sip m.seed m.buckets htbl k hscan' hslot
      obtain ⟨hI, hCnt, hMaps⟩ :=
        insertSlot_spec sip m.seed m.buckets htbl ⟨k, v⟩ j hslot
          (by intro i hi; exact hpath i hi)
          (by intro j' b' hj'; exact hnotmem j' b' hj')
      rw [heq]
      refine ⟨List.length_set _ _ _, rfl, hI, ?_, ?_, ?_, ?_⟩
      · show m.len + 1 = (m.buckets.set j (some ⟨k, v⟩)).countP (fun s => s.isSome)
        rw [hCnt, ← hlenEq]
      · rintro ⟨v0, j0, b0, hj0, hk0, -⟩
        exact absurd hk0 (hnotmem j0 b0 hj0)
      · intro _
        rfl
      · intro k' v'
        exact hMaps k' v'
    · dsimp only at heq
      simp only [slotKeyHit, decide_eq_true_eq] at hps0
      obtain ⟨hI, hCnt, hMaps⟩ :=
        updateSlot_spec sip m.seed m.buckets htbl bOld ⟨k, v⟩ j hslot hps0
      rw [heq]
      refine ⟨List.length_set _ _ _, rfl, hI, ?_, ?_, ?_, ?_⟩
      · show m.len = (m.buckets.set j (some ⟨k, v⟩)).countP (fun s => s.isSome)
        rw [hCnt, ← hlenEq]
      · intro _
        rfl
      · intro hn
        exact absurd ⟨bOld.value, j, bOld, hslot, hps0, rfl⟩ hn
      · intro k' v'
        exact hMaps k' v'

lemma growIfNeeded_spec (sip : Nat → K → Nat) (m : HashMap K V)
    (hInv : MapInv sip m) :
    MapInv sip (m.growIfNeeded sip) ∧
    (m.growIfNeeded sip).len = m.len ∧
    (m.growIfNeeded sip).seed = m.seed ∧
    (m.growIfNeeded sip).buckets.length =
      (if m.buckets.length * 70 ≤ m.len * 100 then
        (if m.buckets.length * 2 < USIZE then m.buckets.length * 2
         else m.buckets.length + 1)
       else m.buckets.length) ∧
    (∀ (k : K) (v : V), MapsTo (m.growIfNeeded sip).buckets k v ↔
      MapsTo m.buckets k v) := by
  unfold HashMap.growIfNeeded
  by_cases hcond : m.buckets.length * 70 ≤ m.len * 100
  · simp only [if_pos hcond]
    exact grow_spec sip m hInv
  · simp only [if_neg hcond]
    exact ⟨hInv, trivial, trivial, trivial, fun _ _ => trivial⟩

lemma insert_spec (sip : Nat → K → Nat) (m : HashMap K V) (hInv : MapInv sip m)
    (k : K) (v : V) :
    MapInv sip (m.insert sip k v) ∧
    (m.insert sip k v).seed = m.seed ∧
    (m.insert sip k v).buckets.length =
      (if m.buckets.length * 70 ≤ m.len * 100 then
        (if m.buckets.length * 2 < USIZE then m.buckets.length * 2
         else m.buckets.length + 1)
       else m.buckets.length) ∧
    ((∃ v0, MapsTo m.buckets k v0) → (m.insert sip k v).len = m.len) ∧
    ((¬∃ v0, MapsTo m.buckets k v0) → (m.insert sip k v).len = m.len + 1) ∧
    (∀ (k' : K) (v' : V), MapsTo (m.insert sip k v).buckets k' v' ↔
      ((k' = k ∧ v' = v) ∨ (k' ≠ k ∧ MapsTo m.buckets k' v'))) := by
  obtain ⟨hgInv, hglen, hgseed, hgcap, hgmaps⟩ := growIfNeeded_spec sip m hInv
  obtain ⟨hrlen, hrseed, hrtbl, hrcnt, hrsame, hrnew, hrmaps⟩ :=
    insertRaw_spec sip (m.growIfNeeded sip) hgInv k v
  have hins : m.insert sip k v = (m.growIfNeeded sip).insertRaw sip k v := rfl
  rw [hins]
  have hexiff : (∃ v0, MapsTo (m.growIfNeeded sip).buckets k v0) ↔
      (∃ v0, MapsTo m.buckets k v0) := by
    constructor
    · rintro ⟨v0, h⟩
      exact ⟨v0, (hgmaps k v0).mp h⟩
    · rintro ⟨v0, h⟩
      exact ⟨v0, (hgmaps k v0).mpr h⟩
  have hlen' : ((m.growIfNeeded sip).insertRaw sip k v).len <
      ((m.growIfNeeded sip).insertRaw sip k v).buckets.length := by
    rw [hrlen]
    by_cases hex : ∃ v0, MapsTo (m.growIfNeeded sip).buckets k v0
    · rw [hrsame hex, hglen]
      by_cases hcond : m.buckets.length * 70 ≤ m.len * 100
      · rw [hgcap, if_pos hcond]
        have h1 := hInv.lenLT
        split <;> omega
      · rw [hgcap, if_neg hcond]
        exact hInv.lenLT
    · rw [hrnew hex, hglen]
      by_cases hcond : m.buckets.length * 70 ≤ m.len * 100
      · rw [hgcap, if_pos hcond]
        have h1 := hInv.lenLT
        split <;> omega
      · rw [hgcap, if_neg hcond]
        have h1 := hInv.capLB
        have h2 := hInv.lenLT
        omega
  refine ⟨⟨?_, hlen', hrcnt, ?_⟩, ?_, ?_, ?_, ?_, ?_⟩
  · rw [hrlen]
    have := hgInv.capLB
    omega
  · rw [hrseed]
    exact hrtbl
  · rw [hrseed, hgseed]
  · rw [hrlen, hgcap]
  · intro hex
    rw [hrsame (hexiff.mpr hex)]
    exact hglen
  · intro hnex
    rw [hrnew (fun hex => hnex (hexiff.mp hex))]
    rw [hglen]
  · intro k' v'
    rw [hrmaps k' v']
    exact or_congr Iff.rfl (and_congr Iff.rfl (hgmaps k' v'))

end InsertLemmas

section GetRunLemmas

variable {K V : Type} [DecidableEq K]

lemma get_eq (sip : Nat → K → Nat) (m : HashMap K V) (k : K) {j : Nat}
    (hscan : scanFrom (slotKeyHit k) m.buckets (m.hashIdx sip k)
      m.buckets.length = some j) :
    m.get sip k = (match m.buckets[j]? with
      | some (some b) => some b.value
      | _ => none) := by
  unfold HashMap.get
  rw [hscan]

lemma get_eq_some_iff (sip : Nat → K → Nat) (m : HashMap K V) (hInv : MapInv sip m)
    (k : K) (v : V) :
    m.get sip k = some v ↔ MapsTo m.buckets k v := by
  obtain ⟨hcapLB, hlenLT, hlenEq, htbl⟩ := hInv
  have hempty : ∃ e, e < m.buckets.length ∧ m.buckets[e]? = some none :=
    exists_none_of_countP_lt m.buckets (by omega)
  have hsome : (scanFrom (slotKeyHit k) m.buckets (m.hashIdx sip k)
      m.buckets.length).isSome :=
    scan_key_isSome sip m.seed m.buckets k hempty
  obtain ⟨j, hscan⟩ := Option.isSome_iff_exists.mp hsome
  have hscan' : scanFrom (slotKeyHit k) m.buckets
      (indexForSeed sip m.seed k m.buckets.length) m.buckets.length = some j := hscan
  rw [get_eq sip m k hscan]
  obtain ⟨d, hd, hj, ⟨s0, hs0, hps0⟩, -⟩ :=
    scanFrom_sound (slotKeyHit k) m.buckets m.buckets.length (m.hashIdx sip k) j hscan
  rcases hslot : m.buckets[j]? with _ | s
  · rw [hslot] at hs0
    exact absurd hs0 (by simp)
  · rw [hslot] at hs0
    simp only [Option.some.injEq] at hs0
    subst hs0
    rcases s with _ | b
    · dsimp only
      constructor
      · intro h
        exact absurd h (by simp)
      · rintro ⟨j0, b0, hj0, hk0, -⟩
        exact absurd hk0
          (scan_found_none_not_mem sip m.seed m.buckets htbl k hscan' hslot j0 b0 hj0)
    · dsimp only
      simp only [slotKeyHit, decide_eq_true_eq] at hps0
      constructor
      · intro h
        simp only [Option.some.injEq] at h
        exact ⟨j, b, hslot, hps0, h⟩
      · rintro ⟨j0, b0, hj0, hk0, hv0⟩
        have hfind := scan_finds_key sip m.seed m.buckets htbl hj0
        rw [hk0] at hfind
        rw [hscan'] at hfind
        simp only [Option.some.injEq] at hfind
        subst hfind
        rw [hslot] at hj0
        simp only [Option.some.injEq] at hj0
        subst hj0
        rw [hv0]

lemma lastVal_append (ops : List (K × V)) (p : K × V) (k : K) :
    lastVal (ops ++ [p]) k = if p.1 = k then some p.2 else lastVal ops k := by
  unfold lastVal
  rw [List.foldl_append]
  rfl

lemma lastVal_isSome_iff (ops : List (K × V)) (k : K) :
    (∃ v, lastVal ops k = some v) ↔ k ∈ ops.map Prod.fst := by
  induction ops using List.reverseRecOn with
  | nil => simp [lastVal]
  | append_singleton ops p ih =>
    rw [List.map_append, List.mem_append]
    constructor
    · rintro ⟨v, hv⟩
      rw [lastVal_append] at hv
      by_cases hp : p.1 = k
      · right
        simp [← hp]
      · rw [if_neg hp] at hv
        exact Or.inl (ih.mp ⟨v, hv⟩)
    · rintro (hmem | hmem)
      · obtain ⟨v, hv⟩ := ih.mpr hmem
        by_cases hp : p.1 = k
        · exact ⟨p.2, by rw [lastVal_append, if_pos hp]⟩
        · exact ⟨v, by rw [lastVal_append, if_neg hp]; exact hv⟩
      · simp only [List.map_cons, List.map_nil, List.mem_singleton] at hmem
        exact ⟨p.2, by rw [lastVal_append, if_pos hmem.symm]⟩

lemma lastVal_of_nodup (ops : List (K × V)) :
    (ops.map Prod.fst).Nodup → ∀ p ∈ ops, lastVal ops p.1 = some p.2 := by
  induction ops using List.reverseRecOn with
  | nil =>
    intro _ p hp
    simp at hp
  | append_singleton ops q ih =>
    intro hnd p hp
    rw [List.map_append] at hnd
    obtain ⟨hnd', -, hdisj⟩ := List.nodup_append.mp hnd
    rw [lastVal_append]
    rcases List.mem_append.mp hp with hp | hp
    · have hne : q.1 ≠ p.1 := by
        intro he
        have hpmem : p.1 ∈ ops.map Prod.fst := List.mem_map.mpr ⟨p, hp, rfl⟩
        exact hdisj hpmem (by simp [← he])
      rw [if_neg hne]
      exact ih hnd' p hp
    · simp only [List.mem_singleton] at hp
      subst hp
      rw [if_pos rfl]

lemma runInserts_append (sip : Nat → K → Nat) (seed : Nat) (ops : List (K × V))
    (p : K × V) :
    runInserts sip seed (ops ++ [p]) =
      (runInserts sip seed ops).insert sip p.1 p.2 := by
  unfold runInserts
  rw [List.foldl_append]
  rfl

lemma runInserts_spec (sip : Nat → K → Nat) (seed : Nat) (ops : List (K × V)) :
    MapInv sip (runInserts sip seed ops) ∧
    (runInserts sip seed ops).seed = seed ∧
    (∀ (k : K) (v : V), MapsTo (runInserts sip seed ops).buckets k v ↔
      lastVal ops k = some v) ∧
    (runInserts sip seed ops).len = (ops.map Prod.fst).toFinset.card := by
  induction ops using List.reverseRecOn with
  | nil =>
    refine ⟨⟨?_, ?_, ?_, ?_⟩, rfl, ?_, ?_⟩
    · show 16 ≤ (List.replicate 16 (none : Option (Bucket K V))).length
      simp
    · show 0 < (List.replicate 16 (none : Option (Bucket K V))).length
      simp
    · show 0 = (List.replicate 16 (none : Option (Bucket K V))).countP
        (fun s => s.isSome)
      rw [countP_replicate_none]
    · exact tableInv_replicate sip seed 16
    · intro k v
      constructor
      · intro h
        exact absurd h (mapsTo_replicate 16 k v)
      · intro h
        simp [lastVal] at h
    · rfl
  | append_singleton ops p ih =>
    obtain ⟨hInv, hseed, hmaps, hlen⟩ := ih
    obtain ⟨hInv', hseed', hcap', hsame', hnew', hmaps'⟩ :=
      insert_spec sip (runInserts sip seed ops) hInv p.1 p.2
    rw [runInserts_append]
    refine ⟨hInv', by rw [hseed']; exact hseed, ?_, ?_⟩
    · intro k v
      rw [hmaps' k v, lastVal_append]
      by_cases hp : p.1 = k
      · rw [if_pos hp]
        subst hp
        constructor
        · rintro (⟨-, hv⟩ | ⟨hne, -⟩)
          · rw [hv]
          · exact absurd rfl hne
        · intro h
          simp only [Option.some.injEq] at h
          exact Or.inl ⟨rfl, h.symm⟩
      · rw [if_neg hp]
        constructor
        · rintro (⟨hk, -⟩ | ⟨-, hm⟩)
          · exact absurd hk.symm hp
          · exact (hmaps k v).mp hm
        · intro h
          exact Or.inr ⟨fun hk => hp hk.symm, (hmaps k v).mpr h⟩
    · rw [List.map_append]
      simp only [List.map_cons, List.map_nil]
      have htf : ((ops.map Prod.fst) ++ [p.1]).toFinset =
          insert p.1 (ops.map Prod.fst).toFinset := by
        rw [List.toFinset_append]
        rw [show ([p.1] : List K).toFinset = {p.1} by simp]
        rw [Finset.union_comm, ← Finset.insert_eq]
      by_cases hmem : p.1 ∈ ops.map Prod.fst
      · have hex : ∃ v0, MapsTo (runInserts sip seed ops).buckets p.1 v0 := by
          obtain ⟨v0, hv0⟩ := (lastVal_isSome_iff ops p.1).mpr hmem
          exact ⟨v0, (hmaps p.1 v0).mpr hv0⟩
        rw [hsame' hex, hlen, htf,
          Finset.card_insert_of_mem (List.mem_toFinset.mpr hmem)]
      · have hnex : ¬∃ v0, MapsTo (runInserts sip seed ops).buckets p.1 v0 := by
          rintro ⟨v0, h⟩
          exact hmem ((lastVal_isSome_iff ops p.1).mp ⟨v0, (hmaps p.1 v0).mp h⟩)
        rw [hnew' hnex, hlen, htf,
          Finset.card_insert_of_not_mem (fun hc => hmem (List.mem_toFinset.mp hc))]

lemma runInserts_cap16 (sip : Nat → K → Nat) (seed : Nat) (ops : List (K × V)) :
    (ops.map Prod.fst).Nodup → ops.length ≤ 12 →
    (runInserts sip seed ops).buckets.length = 16 ∧
    (runInserts sip seed ops).len = ops.length := by
  induction ops using List.reverseRecOn with
  | nil =>
    intro _ _
    exact ⟨by show (List.replicate 16 (none : Option (Bucket K V))).length = 16; simp,
      rfl⟩
  | append_singleton ops p ih =>
    intro hnd hlen
    rw [List.map_append] at hnd
    obtain ⟨hnd', -, hdisj⟩ := List.nodup_append.mp hnd
    have hp : p.1 ∉ ops.map Prod.fst := fun hmem => hdisj hmem (by simp)
    have hlen' : ops.length ≤ 11 := by
      simp only [List.length_append, List.length_cons, List.length_nil] at hlen
      omega
    obtain ⟨hcap, hlength⟩ := ih hnd' (by omega)
    obtain ⟨hmInv, -, hmaps, -⟩ := runInserts_spec sip seed ops
    obtain ⟨-, -, hcap', hsame', hnew', -⟩ :=
      insert_spec sip (runInserts sip seed ops) hmInv p.1 p.2
    have hnex : ¬∃ v0, MapsTo (runInserts sip seed ops).buckets p.1 v0 := by
      rintro ⟨v0, h⟩
      exact hp ((lastVal_isSome_iff ops p.1).mp ⟨v0, (hmaps p.1 v0).mp h⟩)
    constructor
    · rw [runInserts_append, hcap', hcap, hlength]
      rw [if_neg (by omega)]
    · rw [runInserts_append, hnew' hnex, hlength]
      simp

lemma iterate_eq (m : HashMap K V) :
    m.iterate = (m.buckets.filterMap id).map (fun b => (b.key, b.value)) := by
  unfold HashMap.iterate
  rw [List.map_filterMap]
  rfl

end GetRunLemmas

/-- Claim C3: for every sequence of successful `alloc` calls on an initialized
allocator (power-of-two aligns), each returned address is a multiple of its
requested align and the returned ranges are pairwise disjoint (they are in
fact in strictly increasing order); concretely, after `init(0x1000, 0x100)`,
`alloc(8, 8)` returns `0x1000`, a second `alloc(8, 8)` returns `0x1008`, and
`used_bytes() = 16`. -/
theorem claim_C3 :
    (∀ (s : EarlyAllocator) (reqs : List (Nat × Nat)) (sf : EarlyAllocator)
        (res : List (Nat × Nat × Nat)),
      Inv s → s.end_ < USIZE → (∀ r ∈ reqs, GoodAlign r.2) →
      allocRun s reqs = some (sf, res) →
        (∀ r ∈ res, r.2.2 ∣ r.1) ∧
        res.Pairwise (fun r1 r2 => r1.1 + r1.2.1 ≤ r2.1)) ∧
    allocRun (EarlyAllocator.new.init 0x1000 0x100) [(8, 8), (8, 8)] =
      some (⟨0x1000, 0x1100, 0x1010, 0x1100⟩, [(0x1000, 8, 8), (0x1008, 8, 8)]) ∧
    EarlyAllocator.used_bytes ⟨0x1000, 0x1100, 0x1010, 0x1100⟩ = 16 := by
  refine ⟨?_, by decide, by decide⟩
  intro s reqs sf res hInv hend _ hrun
  obtain ⟨hc, hd, -, -⟩ := allocRun_chain reqs s hInv hend sf res hrun
  exact ⟨hd, chainFrom_pairwise res s.b_pos hc⟩

/-- Witness for Claim C3's universally quantified part at a concrete run. -/
theorem claim_C3_witness :
    (∀ r ∈ [((0x1000 : Nat), (8 : Nat), (8 : Nat))], r.2.2 ∣ r.1) ∧
    List.Pairwise (fun (r1 r2 : Nat × Nat × Nat) => r1.1 + r1.2.1 ≤ r2.1)
      [(0x1000, 8, 8)] :=
  claim_C3.1 (EarlyAllocator.new.init 0x1000 0x100) [(8, 8)]
    ⟨0x1000, 0x1100, 0x1008, 0x1100⟩ [(0x1000, 8, 8)]
    (by decide) (by decide)
    (by
      intro r hr
      simp only [List.mem_singleton] at hr
      subst hr
      exact ⟨3, by decide⟩)
    (by decide)

/-- Counterexample to Claim C4's LIFO conjunct as stated: after
`init(0x1000, 0x100)`, `alloc(1, 1)` (cursor at `0x1001`, `used_bytes = 1`)
and then `alloc(8, 8)` (returns the padded address `0x1008`), the matching
`dealloc(0x1008, 8)` retracts the cursor only to `0x1008`: `used_bytes`
becomes `8`, not the pre-allocation value `1` — the alignment padding stays
allocated. -/
theorem claim_C4_counterexample :
    (EarlyAllocator.new.init 0x1000 0x100).alloc 1 1 =
      some (.ok 0x1000, ⟨0x1000, 0x1100, 0x1001, 0x1100⟩) ∧
    (⟨0x1000, 0x1100, 0x1001, 0x1100⟩ : EarlyAllocator).alloc 8 8 =
      some (.ok 0x1008, ⟨0x1000, 0x1100, 0x1010, 0x1100⟩) ∧
    EarlyAllocator.used_bytes ⟨0x1000, 0x1100, 0x1001, 0x1100⟩ = 1 ∧
    ((⟨0x1000, 0x1100, 0x1010, 0x1100⟩ : EarlyAllocator).dealloc 0x1008 8).used_bytes = 8 ∧
    ((⟨0x1000, 0x1100, 0x1010, 0x1100⟩ : EarlyAllocator).dealloc 0x1008 8).used_bytes ≠
      EarlyAllocator.used_bytes ⟨0x1000, 0x1100, 0x1001, 0x1100⟩ := by
  decide

/-- Claim C4 (amended): `dealloc(addr, layout)` with effective size
`max(size, 1)` retracts `b_pos` to `addr` exactly when `addr + size` equals
the current `b_pos` and the freed range lies within `[start, end)`, and is a
state-preserving no-op otherwise; a strict LIFO `alloc`/`dealloc` pair
restores the whole state (hence `used_bytes`) provided the pre-allocation
cursor was already aligned (`align ∣ b_pos`) — with padding, only the aligned
address is reclaimed. -/
theorem claim_C4 (s : EarlyAllocator) (hInv : Inv s) (hend : s.end_ < USIZE) :
    (∀ addr size : Nat,
      s.dealloc addr size =
        if addr + (if size = 0 then 1 else size) = s.b_pos ∧ s.start ≤ addr ∧
            addr + (if size = 0 then 1 else size) ≤ s.end_ then
          { s with b_pos := addr }
        else s) ∧
    (∀ addr size : Nat,
      addr + (if size = 0 then 1 else size) ≠ s.b_pos →
        (s.dealloc addr size).used_bytes = s.used_bytes) ∧
    (∀ (size align addr : Nat) (s' : EarlyAllocator),
      align ∣ s.b_pos → s.alloc size align = some (.ok addr, s') →
        (s'.dealloc addr size).used_bytes = s.used_bytes ∧
        s'.dealloc addr size = s) := by
  obtain ⟨hi1, hi2, hi3⟩ := hInv
  have hb : s.b_pos < USIZE := by omega
  refine ⟨fun addr size => dealloc_eq s addr size hb, ?_, ?_⟩
  · intro addr size hne
    rw [dealloc_eq s addr size hb, if_neg (by rintro ⟨hc1, -, -⟩; exact hne hc1)]
  · intro size align addr s' hdvd h
    have hres := dealloc_lifo s size align addr s' ⟨hi1, hi2, hi3⟩ hend hdvd h
    exact ⟨by rw [hres], hres⟩

/-- Witness for Claim C4 at a concrete aligned LIFO pair. -/
theorem claim_C4_witness :
    ((⟨0x1000, 0x1100, 0x1010, 0x1100⟩ : EarlyAllocator).dealloc 0x1008 8).used_bytes =
      EarlyAllocator.used_bytes ⟨0x1000, 0x1100, 0x1008, 0x1100⟩ ∧
    (⟨0x1000, 0x1100, 0x1010, 0x1100⟩ : EarlyAllocator).dealloc 0x1008 8 =
      ⟨0x1000, 0x1100, 0x1008, 0x1100⟩ :=
  (claim_C4 ⟨0x1000, 0x1100, 0x1008, 0x1100⟩ (by decide) (by decide)).2.2
    8 8 0x1008 ⟨0x1000, 0x1100, 0x1010, 0x1100⟩ (by decide) (by decide)

/-- Claim C5: `add_memory` returns `InvalidParam` for `size = 0`,
`MemoryOverlap` for a range fully inside the current region, succeeds for a
range adjacent on either side — growing `total_bytes` by exactly `size` and,
for a forward extension, resetting `p_pos` to the new `end` — and returns
`InvalidParam` for every other placement. -/
theorem claim_C5 (s : EarlyAllocator) (a sz : Nat) (hInv : Inv s)
    (hUS : a + sz < USIZE) : AddMemorySpec s a sz := by
  obtain ⟨hi1, hi2, hi3⟩ := hInv
  refine ⟨?_, ?_, ?_, ?_, ?_⟩
  · intro h0
    unfold EarlyAllocator.add_memory
    rw [if_pos h0]
  · intro h0 hga hle
    unfold EarlyAllocator.add_memory
    rw [if_neg h0, if_neg (by omega), if_pos ⟨hga, hle⟩]
  · intro h0 ha
    constructor
    · unfold EarlyAllocator.add_memory
      rw [if_neg h0, if_neg (by omega), if_neg (by rintro ⟨-, h6⟩; omega),
        if_pos ha]
    · show a + sz - s.start = s.end_ - s.start + sz
      omega
  · intro h0 ha
    constructor
    · unfold EarlyAllocator.add_memory
      rw [if_neg h0, if_neg (by omega), if_neg (by rintro ⟨h5, -⟩; omega),
        if_neg (by omega), if_pos ha, if_neg (by omega)]
    · show s.end_ - a = s.end_ - s.start + sz
      omega
  · intro h0 hnc hne hnb
    unfold EarlyAllocator.add_memory
    rw [if_neg h0, if_neg (by omega), if_neg hnc, if_neg hne, if_neg hnb]

/-- Witness for Claim C5 at a concrete state and request. -/
theorem claim_C5_witness :
    AddMemorySpec ⟨0x1000, 0x1100, 0x1000, 0x1100⟩ 0x1100 0x10 :=
  claim_C5 ⟨0x1000, 0x1100, 0x1000, 0x1100⟩ 0x1100 0x10 (by decide) (by decide)

/-- Counterexample to Claim C7 as stated: `init` computes
`end = start + size` with plain `usize` addition, which wraps, so
`init(2^63, 2^63)` leaves `end = p_pos = 0` below `b_pos = 2^63` — the
ordering invariant does not hold after every `init` call. -/
theorem claim_C7_counterexample :
    EarlyAllocator.new.init (2 ^ 63) (2 ^ 63) =
      ⟨2 ^ 63, 0, 2 ^ 63, 0⟩ ∧
    ¬Inv (EarlyAllocator.new.init (2 ^ 63) (2 ^ 63)) := by
  decide

/-- Claim C7 (amended): the ordering invariant `start ≤ b_pos ≤ p_pos ≤ end`
holds after every `init(start, size)` whose `start + size` does not overflow
`usize`, and is preserved by every returning `add_memory`, `alloc` and
`dealloc` call, whether it succeeds or reports a recoverable error. -/
theorem claim_C7 :
    (∀ (s : EarlyAllocator) (st sz : Nat), st + sz < USIZE → Inv (s.init st sz)) ∧
    (∀ (s : EarlyAllocator) (a sz : Nat) (r : AllocResult Unit)
        (s' : EarlyAllocator),
      Inv s → s.add_memory a sz = some (r, s') → Inv s') ∧
    (∀ (s : EarlyAllocator) (size align : Nat) (r : AllocResult Nat)
        (s' : EarlyAllocator),
      Inv s → s.b_pos < USIZE → s.alloc size align = some (r, s') → Inv s') ∧
    (∀ (s : EarlyAllocator) (addr size : Nat), Inv s → Inv (s.dealloc addr size)) :=
  ⟨inv_init, inv_add_memory, fun s size align r s' h1 h2 h3 =>
    inv_alloc s size align r s' h1 h2 h3, inv_dealloc⟩

/-- Witness for Claim C7 at concrete states. -/
theorem claim_C7_witness :
    Inv (EarlyAllocator.new.init 0x1000 0x100) ∧
    Inv (EarlyAllocator.dealloc ⟨0x1000, 0x1100, 0x1008, 0x1100⟩ 0x1000 4) :=
  ⟨claim_C7.1 EarlyAllocator.new 0x1000 0x100 (by decide),
   claim_C7.2.2.2 ⟨0x1000, 0x1100, 0x1008, 0x1100⟩ 0x1000 4 (by decide)⟩

/-- Claim C9: the five page operations of the `PageAllocator` impl are
`todo!()` stubs — every call aborts (modelled: returns `none`) and never
produces a value or a recoverable error. -/
theorem claim_C9 (s : EarlyAllocator) (num_pages align_pow2 pos n : Nat) :
    s.alloc_pages num_pages align_pow2 = none ∧
    s.dealloc_pages pos n = none ∧
    s.total_pages = none ∧
    s.used_pages = none ∧
    s.available_pages = none :=
  ⟨rfl, rfl, rfl, rfl, rfl⟩

/-- Claim C10: whenever `add_memory` or `alloc` returns a recoverable error,
the allocator state is unchanged. -/
theorem claim_C10 :
    (∀ (s : EarlyAllocator) (a sz : Nat) (e : AllocError) (s' : EarlyAllocator),
      s.add_memory a sz = some (.err e, s') → s' = s) ∧
    (∀ (s : EarlyAllocator) (size align : Nat) (e : AllocError)
        (s' : EarlyAllocator),
      s.alloc size align = some (.err e, s') → s' = s) :=
  ⟨add_memory_err, alloc_err⟩

/-- Witness for Claim C10 at a concrete failing call. -/
theorem claim_C10_witness :
    (⟨0x1000, 0x1100, 0x1000, 0x1100⟩ : EarlyAllocator) =
      ⟨0x1000, 0x1100, 0x1000, 0x1100⟩ :=
  claim_C10.1 ⟨0x1000, 0x1100, 0x1000, 0x1100⟩ 0 0 .InvalidParam
    ⟨0x1000, 0x1100, 0x1000, 0x1100⟩ (by decide)

/-- Counterexample to Claim C1 as stated: the load check `len * 100 >= cap * 70`
runs before each insert, and `11 * 100 = 1100 < 1120 = 16 * 70`, so inserting
12 distinct keys into a fresh map leaves the capacity at 16 — the table does
not grow to 32 after the 11th insert (shown here at a concrete hash
function/seed; `claim_C1` proves the capacity value for every seed). -/
theorem claim_C1_counterexample :
    (runInserts (fun _ n => n) 0
      [((0 : Nat), (0 : Nat)), (1, 1), (2, 2), (3, 3), (4, 4), (5, 5), (6, 6),
        (7, 7), (8, 8), (9, 9), (10, 10), (11, 11)]).buckets.length = 16 ∧
    ¬(runInserts (fun _ n => n) 0
      [((0 : Nat), (0 : Nat)), (1, 1), (2, 2), (3, 3), (4, 4), (5, 5), (6, 6),
        (7, 7), (8, 8), (9, 9), (10, 10), (11, 11)]).buckets.length = 32 := by
  decide

/-- Claim C1 (amended): inserting 12 distinct keys into a fresh map (any
seed) gives `len() = 12` with every key retrievable, but the table is still
at capacity 16 — the growth to capacity 32 happens only on the 13th distinct
insert (the check `len * 100 >= cap * 70` first fires at `len = 12`). -/
theorem claim_C1 (K V : Type) [DecidableEq K] (sip : Nat → K → Nat) (seed : Nat)
    (ops : List (K × V)) (k13 : K) (v13 : V)
    (hlen : ops.length = 12) (hnd : (ops.map Prod.fst).Nodup)
    (hk13 : k13 ∉ ops.map Prod.fst) :
    (runInserts sip seed ops).len = 12 ∧
    (runInserts sip seed ops).buckets.length = 16 ∧
    (∀ p ∈ ops, (runInserts sip seed ops).get sip p.1 = some p.2) ∧
    ((runInserts sip seed ops).insert sip k13 v13).buckets.length = 32 ∧
    ((runInserts sip seed ops).insert sip k13 v13).len = 13 := by
  obtain ⟨hcap, hlength⟩ := runInserts_cap16 sip seed ops hnd (by omega)
  obtain ⟨hmInv, -, hmaps, -⟩ := runInserts_spec sip seed ops
  obtain ⟨-, -, hcap', hsame', hnew', -⟩ :=
    insert_spec sip (runInserts sip seed ops) hmInv k13 v13
  have hnex : ¬∃ v0, MapsTo (runInserts sip seed ops).buckets k13 v0 := by
    rintro ⟨v0, h⟩
    exact hk13 ((lastVal_isSome_iff ops k13).mp ⟨v0, (hmaps k13 v0).mp h⟩)
  refine ⟨by rw [hlength, hlen], hcap, ?_, ?_, ?_⟩
  · intro p hp
    rw [get_eq_some_iff sip _ hmInv, hmaps p.1 p.2]
    exact lastVal_of_nodup ops hnd p hp
  · rw [hcap', hcap, hlength, hlen]
    rw [if_pos (by omega), if_pos (by unfold USIZE; norm_num)]
  · rw [hnew' hnex, hlength, hlen]

/-- Witness for Claim C1 at 12 concrete distinct keys and a concrete seed. -/
theorem claim_C1_witness :
    (runInserts (fun _ n => n) 0
      [((0 : Nat), (100 : Nat)), (1, 101), (2, 102), (3, 103), (4, 104),
        (5, 105), (6, 106), (7, 107), (8, 108), (9, 109), (10, 110),
        (11, 111)]).len = 12 ∧
    (runInserts (fun _ n => n) 0
      [((0 : Nat), (100 : Nat)), (1, 101), (2, 102), (3, 103), (4, 104),
        (5, 105), (6, 106), (7, 107), (8, 108), (9, 109), (10, 110),
        (11, 111)]).buckets.length = 16 ∧
    (∀ p ∈ [((0 : Nat), (100 : Nat)), (1, 101), (2, 102), (3, 103), (4, 104),
        (5, 105), (6, 106), (7, 107), (8, 108), (9, 109), (10, 110),
        (11, 111)],
      (runInserts (fun _ n => n) 0
        [((0 : Nat), (100 : Nat)), (1, 101), (2, 102), (3, 103), (4, 104),
          (5, 105), (6, 106), (7, 107), (8, 108), (9, 109), (10, 110),
          (11, 111)]).get (fun _ n => n) p.1 = some p.2) ∧
    ((runInserts (fun _ n => n) 0
      [((0 : Nat), (100 : Nat)), (1, 101), (2, 102), (3, 103), (4, 104),
        (5, 105), (6, 106), (7, 107), (8, 108), (9, 109), (10, 110),
        (11, 111)]).insert (fun _ n => n) 12 112).buckets.length = 32 ∧
    ((runInserts (fun _ n => n) 0
      [((0 : Nat), (100 : Nat)), (1, 101), (2, 102), (3, 103), (4, 104),
        (5, 105), (6, 106), (7, 107), (8, 108), (9, 109), (10, 110),
        (11, 111)]).insert (fun _ n => n) 12 112).len = 13 :=
  claim_C1 Nat Nat (fun _ n => n) 0
    [((0 : Nat), (100 : Nat)), (1, 101), (2, 102), (3, 103), (4, 104),
      (5, 105), (6, 106), (7, 107), (8, 108), (9, 109), (10, 110), (11, 111)]
    12 112 (by decide) (by decide) (by decide)

/-- Claim C2: for every insert sequence on a fresh map (any seed), `len()`
equals the number of distinct keys inserted and `get` returns the most
recently inserted value for every inserted key; in particular inserting the
same key twice updates the value in place without increasing `len()`, and
growth loses no entry. -/
theorem claim_C2 (K V : Type) [DecidableEq K] (sip : Nat → K → Nat) (seed : Nat)
    (ops : List (K × V)) :
    (runInserts sip seed ops).len = (ops.map Prod.fst).toFinset.card ∧
    (∀ (k : K) (v : V), lastVal ops k = some v →
      (runInserts sip seed ops).get sip k = some v) ∧
    (∀ (k : K) (v1 v2 : V),
      (runInserts sip seed (ops ++ [(k, v1), (k, v2)])).len =
        (runInserts sip seed (ops ++ [(k, v1)])).len ∧
      (runInserts sip seed (ops ++ [(k, v1), (k, v2)])).get sip k = some v2) := by
  obtain ⟨hInv, -, hmaps, hlen⟩ := runInserts_spec sip seed ops
  refine ⟨hlen, ?_, ?_⟩
  · intro k v hv
    rw [get_eq_some_iff sip _ hInv, hmaps k v]
    exact hv
  · intro k v1 v2
    obtain ⟨hInv2, -, hmaps2, hlen2⟩ :=
      runInserts_spec sip seed (ops ++ [(k, v1), (k, v2)])
    obtain ⟨-, -, -, hlen1⟩ := runInserts_spec sip seed (ops ++ [(k, v1)])
    constructor
    · rw [hlen2, hlen1]
      congr 1
      simp [List.toFinset_append]
    · rw [get_eq_some_iff sip _ hInv2, hmaps2 k v2]
      have hsplit : ops ++ [(k, v1), (k, v2)] = (ops ++ [(k, v1)]) ++ [(k, v2)] := by
        simp
      rw [hsplit, lastVal_append, if_pos rfl]

/-- Witness for Claim C2 at a concrete run. -/
theorem claim_C2_witness :
    (runInserts (fun _ n => n) 7 [((1 : Nat), (10 : Nat)), (2, 20)]).len =
      ([((1 : Nat), (10 : Nat)), (2, 20)].map Prod.fst).toFinset.card ∧
    (∀ (k v : Nat), lastVal [((1 : Nat), (10 : Nat)), (2, 20)] k = some v →
      (runInserts (fun _ n => n) 7 [((1 : Nat), (10 : Nat)), (2, 20)]).get
        (fun _ n => n) k = some v) ∧
    (∀ (k v1 v2 : Nat),
      (runInserts (fun _ n => n) 7
        ([((1 : Nat), (10 : Nat)), (2, 20)] ++ [(k, v1), (k, v2)])).len =
        (runInserts (fun _ n => n) 7
          ([((1 : Nat), (10 : Nat)), (2, 20)] ++ [(k, v1)])).len ∧
      (runInserts (fun _ n => n) 7
        ([((1 : Nat), (10 : Nat)), (2, 20)] ++ [(k, v1), (k, v2)])).get
        (fun _ n => n) k = some v2) :=
  claim_C2 Nat Nat (fun _ n => n) 7 [((1 : Nat), (10 : Nat)), (2, 20)]

/-- Claim C6: every map state reachable by inserts satisfies
`len < buckets.len()`, so the probe loops of `get` and `insert` terminate:
the scan from the home index reaches a matching key or an empty slot within
at most `capacity` steps (the scan with fuel `capacity` returns a slot), both
on the reachable state itself (the `get` loop) and on the state after the
load-factor check (the `insert` loop). -/
theorem claim_C6 (K V : Type) [DecidableEq K] (sip : Nat → K → Nat) (seed : Nat)
    (ops : List (K × V)) (k : K) :
    (runInserts sip seed ops).len < (runInserts sip seed ops).buckets.length ∧
    (scanFrom (slotKeyHit k) (runInserts sip seed ops).buckets
      ((runInserts sip seed ops).hashIdx sip k)
      (runInserts sip seed ops).buckets.length).isSome ∧
    (scanFrom (slotKeyHit k)
      ((runInserts sip seed ops).growIfNeeded sip).buckets
      (((runInserts sip seed ops).growIfNeeded sip).hashIdx sip k)
      ((runInserts sip seed ops).growIfNeeded sip).buckets.length).isSome := by
  obtain ⟨hInv, -, -, -⟩ := runInserts_spec sip seed ops
  obtain ⟨hgInv, -, -, -, -⟩ := growIfNeeded_spec sip (runInserts sip seed ops) hInv
  refine ⟨hInv.lenLT, ?_, ?_⟩
  · exact scan_key_isSome sip (runInserts sip seed ops).seed _ k
      (exists_none_of_countP_lt _ (by
        have h1 := hInv.lenEq
        have h2 := hInv.lenLT
        omega))
  · exact scan_key_isSome sip ((runInserts sip seed ops).growIfNeeded sip).seed _ k
      (exists_none_of_countP_lt _ (by
        have h1 := hgInv.lenEq
        have h2 := hgInv.lenLT
        omega))

/-- Witness for Claim C6 at a concrete run and probe key. -/
theorem claim_C6_witness :
    (runInserts (fun _ n => n) 3 [((1 : Nat), (1 : Nat))]).len <
      (runInserts (fun _ n => n) 3 [((1 : Nat), (1 : Nat))]).buckets.length ∧
    (scanFrom (slotKeyHit 5) (runInserts (fun _ n => n) 3 [((1 : Nat), (1 : Nat))]).buckets
      ((runInserts (fun _ n => n) 3 [((1 : Nat), (1 : Nat))]).hashIdx (fun _ n => n) 5)
      (runInserts (fun _ n => n) 3 [((1 : Nat), (1 : Nat))]).buckets.length).isSome ∧
    (scanFrom (slotKeyHit 5)
      ((runInserts (fun _ n => n) 3 [((1 : Nat), (1 : Nat))]).growIfNeeded (fun _ n => n)).buckets
      (((runInserts (fun _ n => n) 3 [((1 : Nat), (1 : Nat))]).growIfNeeded (fun _ n => n)).hashIdx
        (fun _ n => n) 5)
      ((runInserts (fun _ n => n) 3
        [((1 : Nat), (1 : Nat))]).growIfNeeded (fun _ n => n)).buckets.length).isSome :=
  claim_C6 Nat Nat (fun _ n => n) 3 [((1 : Nat), (1 : Nat))] 5

/-- Claim C8: after any insert sequence, running the iterator to completion
yields exactly `len()` pairs, with pairwise distinct keys, and the pairs are
exactly the distinct inserted keys, each with its latest value. -/
theorem claim_C8 (K V : Type) [DecidableEq K] (sip : Nat → K → Nat) (seed : Nat)
    (ops : List (K × V)) :
    (runInserts sip seed ops).iterate.length = (runInserts sip seed ops).len ∧
    ((runInserts sip seed ops).iterate.map Prod.fst).Nodup ∧
    (∀ (k : K) (v : V), (k, v) ∈ (runInserts sip seed ops).iterate ↔
      lastVal ops k = some v) := by
  obtain ⟨hInv, -, hmaps, -⟩ := runInserts_spec sip seed ops
  refine ⟨?_, ?_, ?_⟩
  · rw [iterate_eq, List.length_map, length_filterMap_id, ← hInv.lenEq]
  · rw [iterate_eq, List.map_map]
    exact entries_keys_nodup _ hInv.tbl.distinct
  · intro k v
    rw [iterate_eq]
    constructor
    · intro hmem
      obtain ⟨b, hb, heq⟩ := List.mem_map.mp hmem
      simp only [Prod.mk.injEq] at heq
      obtain ⟨hk, hv⟩ := heq
      exact (hmaps k v).mp ((exists_entry_iff_mapsTo _ k v).mp ⟨b, hb, hk, hv⟩)
    · intro hlv
      obtain ⟨b, hb, hk, hv⟩ :=
        (exists_entry_iff_mapsTo _ k v).mpr ((hmaps k v).mpr hlv)
      exact List.mem_map.mpr ⟨b, hb, by rw [hk, hv]⟩

/-- Witness for Claim C8 at a concrete run with a duplicated key. -/
theorem claim_C8_witness :
    (runInserts (fun _ n => n) 0 [((1 : Nat), (1 : Nat)), (1, 2)]).iterate.length =
      (runInserts (fun _ n => n) 0 [((1 : Nat), (1 : Nat)), (1, 2)]).len ∧
    ((runInserts (fun _ n => n) 0
      [((1 : Nat), (1 : Nat)), (1, 2)]).iterate.map Prod.fst).Nodup ∧
    (∀ (k v : Nat),
      (k, v) ∈ (runInserts (fun _ n => n) 0 [((1 : Nat), (1 : Nat)), (1, 2)]).iterate ↔
      lastVal [((1 : Nat), (1 : Nat)), (1, 2)] k = some v) :=
  claim_C8 Nat Nat (fun _ n => n) 0 [((1 : Nat), (1 : Nat)), (1, 2)]

end ArceOS
